import Mathlib

/-!
# gotestracer: `go test -json` events to tracing spans

A shallow embedding of `main.go`: the event decoder `parseTestOutput`, the span
synthesizer `CreateTrace`, the exporter `FileSpanExporter.ExportSpans` and the
line loop of `main`.  The library calls the program makes (`json.Unmarshal`,
`strings.Contains`, `fmt.Errorf`, `bufio.Reader.ReadString`, `io.Writer.Write`,
the tracer) are modelled next to the function that uses them; `json.Marshal`
on the span map is a parameter of `ExportSpans`.  The batch span processor that
calls `ExportSpans` from its own goroutine, and the waits of `main`, are not
part of the embedding.

Go strings are modelled by Lean strings, so the development covers inputs that
are valid UTF-8 text.
-/

namespace GoTestTracer

/-! ## The event record -/

/-- The struct `TestOutput` of `main.go`: five string fields, each tagged with
its own name as JSON key. -/
structure TestOutput where
  Time : String
  Action : String
  Package : String
  Test : String
  Output : String
deriving DecidableEq, Repr

/-- The zero value of `TestOutput` (`var testOutput TestOutput`). -/
def TestOutput.zero : TestOutput := ⟨"", "", "", "", ""⟩

/-! ## `encoding/json`: lexical layer -/

/-- Lexical tokens of a JSON text.  A string token carries the characters
between its quotes with the escapes still unresolved. -/
inductive Token
  | lbrace
  | rbrace
  | lbrack
  | rbrack
  | colon
  | comma
  | str (raw : List Char)
  | num (raw : List Char)
  | litTrue
  | litFalse
  | litNull
deriving DecidableEq, Repr

/-- Positions inside a JSON number literal
`-? (0 | [1-9][0-9]*) (. [0-9]+)? ([eE] [+-]? [0-9]+)?`. -/
inductive NumState
  | neg
  | zero
  | int
  | dot
  | frac
  | exp
  | expSign
  | expDigits
deriving DecidableEq, Repr

/-- Positions of the scanner inside a token.  Accumulators are kept reversed. -/
inductive LexState
  | top
  | inString (acc : List Char)
  | inEscape (acc : List Char)
  | inUnicode (acc : List Char) (left : Nat)
  | inNumber (st : NumState) (acc : List Char)
  | inLiteral (rest : List Char) (tok : Token)
deriving DecidableEq, Repr

/-- ASCII decimal digit. -/
def isDigit (c : Char) : Bool := decide (48 ≤ c.toNat) && decide (c.toNat ≤ 57)

/-- ASCII hexadecimal digit, either case. -/
def isHexDigit (c : Char) : Bool :=
  isDigit c || (decide (97 ≤ c.toNat) && decide (c.toNat ≤ 102))
    || (decide (65 ≤ c.toNat) && decide (c.toNat ≤ 70))

/-- JSON insignificant white space: space, tab, carriage return, line feed. -/
def isSpace (c : Char) : Bool :=
  c.toNat == 32 || c.toNat == 9 || c.toNat == 13 || c.toNat == 10

/-- A number literal may end in this position. -/
def NumState.accepting : NumState → Bool
  | .zero => true
  | .int => true
  | .frac => true
  | .expDigits => true
  | _ => false

/-- One character inside a number literal; `none` when the character does not
continue the literal. -/
def NumState.next (st : NumState) (c : Char) : Option NumState :=
  match st with
  | .neg => if c.toNat == 48 then some .zero else if isDigit c then some .int else none
  | .zero =>
    if c.toNat == 46 then some .dot
    else if c.toNat == 101 || c.toNat == 69 then some .exp else none
  | .int =>
    if isDigit c then some .int
    else if c.toNat == 46 then some .dot
    else if c.toNat == 101 || c.toNat == 69 then some .exp else none
  | .dot => if isDigit c then some .frac else none
  | .frac =>
    if isDigit c then some .frac
    else if c.toNat == 101 || c.toNat == 69 then some .exp else none
  | .exp =>
    if c.toNat == 43 || c.toNat == 45 then some .expSign
    else if isDigit c then some .expDigits else none
  | .expSign => if isDigit c then some .expDigits else none
  | .expDigits => if isDigit c then some .expDigits else none

/-- The scanner between tokens: white space is skipped, punctuation is a token
of its own, and a quote, a sign, a digit or one of `t`, `f`, `n` opens a longer
token.  Anything else is a syntax error. -/
def lexTop (c : Char) : Option (List Token × LexState) :=
  if isSpace c then some ([], .top)
  else if c.toNat == 123 then some ([.lbrace], .top)
  else if c.toNat == 125 then some ([.rbrace], .top)
  else if c.toNat == 91 then some ([.lbrack], .top)
  else if c.toNat == 93 then some ([.rbrack], .top)
  else if c.toNat == 58 then some ([.colon], .top)
  else if c.toNat == 44 then some ([.comma], .top)
  else if c.toNat == 34 then some ([], .inString [])
  else if c.toNat == 45 then some ([], .inNumber .neg [c])
  else if c.toNat == 48 then some ([], .inNumber .zero [c])
  else if isDigit c then some ([], .inNumber .int [c])
  else if c.toNat == 116 then some ([], .inLiteral ['r', 'u', 'e'] .litTrue)
  else if c.toNat == 102 then some ([], .inLiteral ['a', 'l', 's', 'e'] .litFalse)
  else if c.toNat == 110 then some ([], .inLiteral ['u', 'l', 'l'] .litNull)
  else none

/-- One character of input.  Returns the tokens completed by it and the next
scanner position, or `none` on a syntax error. -/
def lexStep (s : LexState) (c : Char) : Option (List Token × LexState) :=
  match s with
  | .top => lexTop c
  | .inString acc =>
    if c.toNat == 34 then some ([.str acc.reverse], .top)
    else if c.toNat == 92 then some ([], .inEscape (c :: acc))
    else if c.toNat < 32 then none
    else some ([], .inString (c :: acc))
  | .inEscape acc =>
    if c.toNat == 117 then some ([], .inUnicode (c :: acc) 4)
    else if c.toNat == 34 || c.toNat == 92 || c.toNat == 47 || c.toNat == 98
        || c.toNat == 102 || c.toNat == 110 || c.toNat == 114 || c.toNat == 116 then
      some ([], .inString (c :: acc))
    else none
  | .inUnicode acc left =>
    if isHexDigit c then
      if left ≤ 1 then some ([], .inString (c :: acc))
      else some ([], .inUnicode (c :: acc) (left - 1))
    else none
  | .inNumber st acc =>
    match st.next c with
    | some st' => some ([], .inNumber st' (c :: acc))
    | none =>
      if st.accepting then
        match lexTop c with
        | some (toks, s') => some (.num acc.reverse :: toks, s')
        | none => none
      else none
  | .inLiteral rest tok =>
    match rest with
    | [] => none
    | [r] => if c = r then some ([tok], .top) else none
    | r :: rs => if c = r then some ([], .inLiteral rs tok) else none

/-- End of input: only a number literal can be closed by it. -/
def lexEnd (s : LexState) : Option (List Token) :=
  match s with
  | .top => some []
  | .inNumber st acc => if st.accepting then some [.num acc.reverse] else none
  | _ => none

/-- The token sequence of a text, `none` on a lexical error. -/
def tokenizeFrom : LexState → List Char → Option (List Token)
  | s, [] => lexEnd s
  | s, c :: cs =>
    match lexStep s c with
    | none => none
    | some (toks, s') =>
      match tokenizeFrom s' cs with
      | none => none
      | some more => some (toks ++ more)

/-- Tokens of a whole text. -/
def tokenize (cs : List Char) : Option (List Token) := tokenizeFrom .top cs

/-! ## `encoding/json`: string literals -/

/-- Value of a hexadecimal digit. -/
def hexVal (c : Char) : Nat :=
  if isDigit c then c.toNat - 48
  else if decide (97 ≤ c.toNat) && decide (c.toNat ≤ 102) then c.toNat - 87
  else c.toNat - 55

/-- The code unit written by the four hexadecimal digits of a `\u` escape. -/
def hex4 (a b c d : Char) : Nat :=
  hexVal a * 4096 + hexVal b * 256 + hexVal c * 16 + hexVal d

/-- The replacement character U+FFFD. -/
def replacementChar : Char := Char.ofNat 65533

/-- The character written by a one-letter escape. -/
def escapeChar (c : Char) : Char :=
  if c.toNat == 98 then Char.ofNat 8
  else if c.toNat == 102 then Char.ofNat 12
  else if c.toNat == 110 then Char.ofNat 10
  else if c.toNat == 114 then Char.ofNat 13
  else if c.toNat == 116 then Char.ofNat 9
  else c

/-- The code unit of a `\uXXXX` escape at the head of the text, if there is one
(`getu4`). -/
def getu4 : List Char → Option Nat
  | bs :: u :: a :: b :: c :: d :: _ =>
    if bs.toNat == 92 && u.toNat == 117 && isHexDigit a && isHexDigit b
        && isHexDigit c && isHexDigit d then
      some (hex4 a b c d)
    else none
  | _ => none

/-- Resolution of the escapes of a scanned string literal (`unquote`).  A
`\u` escape that is a UTF-16 surrogate is combined with a following low
surrogate escape; a surrogate that is not part of a valid pair becomes U+FFFD.
The fuel is the length of the text. -/
def unquoteAux : Nat → List Char → List Char
  | 0, _ => []
  | _ + 1, [] => []
  | n + 1, c :: rest =>
    if c.toNat == 92 then
      match rest with
      | [] => []
      | e :: rest1 =>
        if e.toNat == 117 then
          match getu4 (c :: e :: rest1) with
          | none => []
          | some rr =>
            let rest2 := rest1.drop 4
            if decide (55296 ≤ rr) && decide (rr < 57344) then
              match getu4 rest2 with
              | some rr1 =>
                if decide (rr < 56320) && decide (56320 ≤ rr1) && decide (rr1 < 57344) then
                  Char.ofNat (65536 + (rr - 55296) * 1024 + (rr1 - 56320))
                    :: unquoteAux n (rest2.drop 6)
                else replacementChar :: unquoteAux n rest2
              | none => replacementChar :: unquoteAux n rest2
            else Char.ofNat rr :: unquoteAux n rest2
        else escapeChar e :: unquoteAux n rest1
    else c :: unquoteAux n rest

/-- The string denoted by the raw contents of a string literal. -/
def unquote (raw : List Char) : String := String.mk (unquoteAux raw.length raw)

/-! ## `encoding/json`: syntax -/

/-- A JSON value.  Object members are kept in source order, duplicates
included. -/
inductive JSON
  | null
  | bool (b : Bool)
  | number (raw : String)
  | string (s : String)
  | array (elems : List JSON)
  | object (members : List (String × JSON))

/-- An open container on the parse stack, with what it has collected so far
(reversed). -/
inductive Frame
  | arr (done : List JSON)
  | obj (done : List (String × JSON)) (key : Option String)

/-- What the grammar allows next. -/
inductive Expect
  | value
  | valueOrEnd
  | keyOrEnd
  | key
  | colon
  | sepOrEnd
deriving DecidableEq, Repr

/-- State of the parser: inside the top-level value, or past it. -/
inductive ParseState
  | running (stack : List Frame) (expect : Expect)
  | finished (v : JSON)

/-- The nesting limit of the scanner (`maxNestingDepth`). -/
def maxNestingDepth : Nat := 10000

/-- A value is complete: it is the document, or it joins the container that
encloses it. -/
def complete (v : JSON) : List Frame → Option ParseState
  | [] => some (.finished v)
  | .arr done :: rest => some (.running (.arr (v :: done) :: rest) .sepOrEnd)
  | .obj done (some k) :: rest => some (.running (.obj ((k, v) :: done) none :: rest) .sepOrEnd)
  | .obj _ none :: _ => none

/-- A token at a place where a value must start. -/
def beginValue (tok : Token) (stack : List Frame) : Option ParseState :=
  match tok with
  | .str raw => complete (.string (unquote raw)) stack
  | .num raw => complete (.number (String.mk raw)) stack
  | .litTrue => complete (.bool true) stack
  | .litFalse => complete (.bool false) stack
  | .litNull => complete .null stack
  | .lbrace =>
    if stack.length + 1 ≤ maxNestingDepth then some (.running (.obj [] none :: stack) .keyOrEnd)
    else none
  | .lbrack =>
    if stack.length + 1 ≤ maxNestingDepth then some (.running (.arr [] :: stack) .valueOrEnd)
    else none
  | _ => none

/-- A string token at a place where an object key must stand. -/
def beginKey (raw : List Char) : List Frame → Option ParseState
  | .obj done none :: rest => some (.running (.obj done (some (unquote raw)) :: rest) .colon)
  | _ => none

/-- A closing bracket. -/
def closeArray : List Frame → Option ParseState
  | .arr done :: rest => complete (.array done.reverse) rest
  | _ => none

/-- A closing brace. -/
def closeObject : List Frame → Option ParseState
  | .obj done none :: rest => complete (.object done.reverse) rest
  | _ => none

/-- One token of input; `none` on a syntax error. -/
def parseStep (st : ParseState) (tok : Token) : Option ParseState :=
  match st with
  | .finished _ => none
  | .running stack .value => beginValue tok stack
  | .running stack .valueOrEnd =>
    match tok with
    | .rbrack => closeArray stack
    | _ => beginValue tok stack
  | .running stack .keyOrEnd =>
    match tok with
    | .rbrace => closeObject stack
    | .str raw => beginKey raw stack
    | _ => none
  | .running stack .key =>
    match tok with
    | .str raw => beginKey raw stack
    | _ => none
  | .running stack .colon =>
    match tok with
    | .colon => some (.running stack .value)
    | _ => none
  | .running stack .sepOrEnd =>
    match tok with
    | .comma =>
      match stack with
      | .arr _ :: _ => some (.running stack .value)
      | .obj _ _ :: _ => some (.running stack .key)
      | [] => none
    | .rbrack => closeArray stack
    | .rbrace => closeObject stack
    | _ => none

/-- The parser run over a token sequence. -/
def parseTokens : ParseState → List Token → Option ParseState
  | st, [] => some st
  | st, tok :: toks =>
    match parseStep st tok with
    | none => none
    | some st' => parseTokens st' toks

/-- The JSON value a text denotes: exactly one value, white space around it
allowed; `none` when the text is not valid JSON (`checkValid` fails). -/
def parseJSON (data : String) : Option JSON :=
  match tokenize data.data with
  | none => none
  | some toks =>
    match parseTokens (.running [] .value) toks with
    | some (.finished v) => some v
    | _ => none

/-! ## `encoding/json`: decoding into `TestOutput` -/

/-- The fields of `TestOutput`, in declaration order. -/
inductive Field
  | Time
  | Action
  | Package
  | Test
  | Output
deriving DecidableEq, Repr

/-- The JSON key of a field (its struct tag). -/
def Field.name : Field → String
  | .Time => "Time"
  | .Action => "Action"
  | .Package => "Package"
  | .Test => "Test"
  | .Output => "Output"

/-- All fields, in declaration order. -/
def Field.all : List Field := [.Time, .Action, .Package, .Test, .Output]

/-- Case folding of one character of a key (`foldRune`): ASCII letters go to
upper case, and the two non-ASCII characters whose simple case folding reaches
an ASCII letter, U+017F (long s) and U+212A (Kelvin sign), go to `S` and `K`.
Every other character folds to a non-ASCII character, which can match no field
name, and is left as it is. -/
def foldRune (c : Char) : Char :=
  if decide (97 ≤ c.toNat) && decide (c.toNat ≤ 122) then Char.ofNat (c.toNat - 32)
  else if c.toNat == 383 then Char.ofNat 83
  else if c.toNat == 8490 then Char.ofNat 75
  else c

/-- Case folding of a key (`foldName`). -/
def foldName (s : String) : List Char := s.data.map foldRune

/-- The field a JSON key addresses: the field whose name is the key, else the
first field whose name equals the key under case folding. -/
def findField (key : String) : Option Field :=
  match Field.all.find? (fun f => f.name == key) with
  | some f => some f
  | none => Field.all.find? (fun f => foldName f.name == foldName key)

/-- Assignment of a decoded string to a field. -/
def TestOutput.set (v : TestOutput) (f : Field) (s : String) : TestOutput :=
  match f with
  | .Time => { v with Time := s }
  | .Action => { v with Action := s }
  | .Package => { v with Package := s }
  | .Test => { v with Test := s }
  | .Output => { v with Output := s }

/-- Read access to a field. -/
def TestOutput.get (v : TestOutput) (f : Field) : String :=
  match f with
  | .Time => v.Time
  | .Action => v.Action
  | .Package => v.Package
  | .Test => v.Test
  | .Output => v.Output

/-- The errors of `json.Unmarshal`: `*json.SyntaxError`, and
`*json.UnmarshalTypeError` with the kind of the offending JSON value and the
field it was meant for (empty at top level). -/
inductive JsonError
  | syntaxError
  | unmarshalTypeError (value : String) (field : String)
deriving DecidableEq, Repr

/-- The kind of a JSON value as `UnmarshalTypeError.Value` names it. -/
def JSON.kind : JSON → String
  | .null => "null"
  | .bool _ => "bool"
  | .number _ => "number"
  | .string _ => "string"
  | .array _ => "array"
  | .object _ => "object"

/-- Decoding of one member value into a string field: a JSON string is stored,
`null` leaves the field as it is, and any other value is a type error that
leaves the field as it is. -/
def storeValue (v : TestOutput) (f : Field) (j : JSON) : TestOutput × Option JsonError :=
  match j with
  | .string s => (v.set f s, none)
  | .null => (v, none)
  | other => (v, some (.unmarshalTypeError other.kind f.name))

/-- The first error is the one that is kept (`saveError`). -/
def saveError (saved : Option JsonError) (e : Option JsonError) : Option JsonError :=
  match saved with
  | some s => some s
  | none => e

/-- Decoding of the members of an object, in order.  A key that addresses no
field is skipped together with its value; decoding goes on after a type
error. -/
def decodeMembers : List (String × JSON) → TestOutput × Option JsonError →
    TestOutput × Option JsonError
  | [], acc => acc
  | (k, j) :: rest, (v, saved) =>
    match findField k with
    | none => decodeMembers rest (v, saved)
    | some f => decodeMembers rest ((storeValue v f j).1, saveError saved (storeValue v f j).2)

/-- The call `json.Unmarshal([]byte(data), &v)` for `v` of type `TestOutput`:
the struct after the call and the error returned.  Invalid JSON leaves the
struct untouched; an object fills the fields its keys address; `null` is a
no-op; any other top-level value is a type error. -/
def jsonUnmarshal (data : String) (v : TestOutput) : TestOutput × Option JsonError :=
  match parseJSON data with
  | none => (v, some .syntaxError)
  | some (.object members) => decodeMembers members (v, none)
  | some .null => (v, none)
  | some other => (v, some (.unmarshalTypeError other.kind ""))

/-! ## `parseTestOutput` -/

/-- Go `error` values the program handles: the result of `fmt.Errorf`, an error
of the JSON decoder, `io.EOF`, and any other library error, told apart by its
message. -/
inductive GoError
  | errorf (msg : String)
  | json (e : JsonError)
  | eof
  | other (msg : String)
deriving DecidableEq, Repr

/-- The call `fmt.Errorf("ignoring line %s", s)`. -/
def ignoringLine (s : String) : GoError := .errorf ("ignoring line " ++ s)

/-- Whether `sub` occurs in `s` starting at some position. -/
def containsAt : List Char → List Char → Bool
  | [], sub => sub.isEmpty
  | c :: cs, sub => sub.isPrefixOf (c :: cs) || containsAt cs sub

/-- The call `strings.Contains(s, substr)`. -/
def stringsContains (s substr : String) : Bool := containsAt s.data substr.data

/-- The function `parseTestOutput` of `main.go`.  The pair is the Go result
`(*TestOutput, error)`, `none` standing for `nil`. -/
def parseTestOutput (output : String) : Option TestOutput × Option GoError :=
  let testOutput := (jsonUnmarshal output TestOutput.zero).1
  let err := (jsonUnmarshal output TestOutput.zero).2
  if testOutput.Action ≠ "output" then
    (none, some (ignoringLine testOutput.Output))
  else if !stringsContains testOutput.Output "PASS" && !stringsContains testOutput.Output "FAIL" then
    (none, some (ignoringLine testOutput.Output))
  else
    (some testOutput, err.map GoError.json)

/-! ## The tracer and `CreateTrace` -/

/-- A span as the tracer records it: its name and the attributes set on it, in
the order they were set. -/
structure Span where
  name : String
  attributes : List (String × String)
deriving DecidableEq, Repr

/-- State of the tracer `otel.Tracer("gotestracer")` under the always-on
sampler: how many spans were started, and the spans that were ended, oldest
first (what the span processor is handed). -/
structure TracerState where
  started : Nat
  ended : List Span
deriving DecidableEq, Repr

/-- The tracer before any span. -/
def TracerState.init : TracerState := ⟨0, []⟩

/-- The call `tracer.Start(ctx, name)`: a new span with that name and no
attributes. -/
def TracerState.Start (t : TracerState) (name : String) : TracerState × Span :=
  ({ t with started := t.started + 1 }, ⟨name, []⟩)

/-- The call `span.SetAttributes(kvs...)` with string attributes whose keys are
non-empty. -/
def Span.SetAttributes (s : Span) (kvs : List (String × String)) : Span :=
  { s with attributes := s.attributes ++ kvs }

/-- The call `span.End()`. -/
def TracerState.End (t : TracerState) (s : Span) : TracerState :=
  { t with ended := t.ended ++ [s] }

/-- The function `CreateTrace` of `main.go`, as a transformer of the tracer
state.  The deferred `span.End()` runs last. -/
def CreateTrace (testOutput : TestOutput) (t : TracerState) : TracerState :=
  let started := t.Start testOutput.Test
  let span := started.2.SetAttributes
    [("package", testOutput.Package), ("action", testOutput.Action),
      ("output", testOutput.Output)]
  started.1.End span

/-! ## `FileSpanExporter.ExportSpans` -/

/-- An `io.Writer`.  `sink` is what the destination has received, `log` the
arguments of the `Write` calls made so far, and `policy` the behaviour of the
destination: given the calls so far and the slice to write, `none` when the
whole slice is written and the error is `nil`, or `some (n, err)` when the
write stops after `n` bytes of the slice with error `err`.  (A `Write` that
returns `n < len(p)` must return a non-nil error.) -/
structure Writer where
  sink : List Char
  log : List (List Char)
  policy : List (List Char) → List Char → Option (Nat × GoError)

/-- The call `w.Write(p)`: the writer afterwards, the count and the error. -/
def Writer.Write (w : Writer) (p : List Char) : Writer × Nat × Option GoError :=
  match w.policy w.log p with
  | none => ({ w with sink := w.sink ++ p, log := w.log ++ [p] }, p.length, none)
  | some (n, err) =>
    ({ w with sink := w.sink ++ p.take n, log := w.log ++ [p] }, min n p.length, some err)

/-- What `sdktrace.ReadOnlySpan` offers to `ExportSpans`.  The identifiers are
given by their `String()` form; `α` is the type of the values the tracing SDK
returns for attributes, events, links and status. -/
structure ReadOnlySpan (α : Type) where
  traceID : String
  spanID : String
  name : String
  attributes : α
  events : α
  links : α
  status : α

/-- A value of the `map[string]interface{}` built for a span: a string, or a
value of the tracing SDK. -/
inductive MapValue (α : Type)
  | str (s : String)
  | sdk (v : α)

/-- The map literal `spanData` of `ExportSpans`, as its list of entries. -/
def spanData {α : Type} (span : ReadOnlySpan α) : List (String × MapValue α) :=
  [ ("traceID", .str span.traceID),
    ("spanID", .str span.spanID),
    ("name", .str span.name),
    ("attributes", .sdk span.attributes),
    ("events", .sdk span.events),
    ("links", .sdk span.links),
    ("status", .sdk span.status) ]

/-- The method `ExportSpans` of `FileSpanExporter`, for the writer `f.writer`
and a serializer `marshal` standing for `json.Marshal` on the span map.
Returns the writer afterwards and the error, `none` standing for `nil`. -/
def ExportSpans {α : Type} (marshal : List (String × MapValue α) → Except GoError (List Char))
    (writer : Writer) : List (ReadOnlySpan α) → Writer × Option GoError
  | [] => (writer, none)
  | span :: spans =>
    match marshal (spanData span) with
    | .error err => (writer, some err)
    | .ok jsonData =>
      match (writer.Write jsonData).2.2 with
      | some err => ((writer.Write jsonData).1, some err)
      | none =>
        match (((writer.Write jsonData).1).Write ['\n']).2.2 with
        | some err => ((((writer.Write jsonData).1).Write ['\n']).1, some err)
        | none => ExportSpans marshal (((writer.Write jsonData).1).Write ['\n']).1 spans

/-! ## The line loop of `main` -/

/-- The buffered reader over standard input: the bytes not yet consumed, and
the error the stream reports once they are used up (`io.EOF` at a clean end of
input). -/
structure Reader where
  data : List Char
  fail : GoError
deriving DecidableEq, Repr

/-- The text up to and including the first `delim`, and what follows it. -/
def splitAtDelim (delim : Char) : List Char → Option (List Char × List Char)
  | [] => none
  | c :: cs =>
    if c = delim then some ([c], cs)
    else
      match splitAtDelim delim cs with
      | none => none
      | some (line, rest) => some (c :: line, rest)

/-- The call `reader.ReadString(delim)`: the text up to and including the
delimiter with a `nil` error, or, when the input ends before a delimiter, the
text read so far with the error of the stream. -/
def Reader.ReadString (r : Reader) (delim : Char) : String × Reader × Option GoError :=
  match splitAtDelim delim r.data with
  | some (line, rest) => (String.mk line, { r with data := rest }, none)
  | none => (String.mk r.data, { r with data := [] }, some r.fail)

/-- How the loop of `main` stops: `break` at end of input, `log.Fatalf` on a
read error, a nil dereference in `CreateTrace`, or not yet (fuel used up). -/
inductive Exit
  | finished
  | fatal (err : GoError)
  | nilDereference
  | running
deriving DecidableEq, Repr

/-- The `for` loop of `main`, at most `fuel` iterations. -/
def mainLoop : Nat → Reader → TracerState → Exit × TracerState
  | 0, _, t => (.running, t)
  | fuel + 1, reader, t =>
    match (reader.ReadString '\n').2.2 with
    | some err => if err = GoError.eof then (.finished, t) else (.fatal err, t)
    | none =>
      match parseTestOutput (reader.ReadString '\n').1 with
      | (_, some _) => mainLoop fuel (reader.ReadString '\n').2.1 t
      | (some testOutput, none) =>
        mainLoop fuel (reader.ReadString '\n').2.1 (CreateTrace testOutput t)
      | (none, none) => (.nilDereference, t)

/-- The function `main` of `main.go` on a given standard input: how the loop
ends and the tracer state it leaves.  Each iteration consumes at least one
byte, so the length of the input bounds the number of iterations. -/
def main (stdin : Reader) : Exit × TracerState :=
  mainLoop (stdin.data.length + 1) stdin TracerState.init

/-! ## Notions used in the statements -/

/-- The input stream made of the given lines, each followed by a newline. -/
def streamOf : List (List Char) → List Char
  | [] => []
  | l :: ls => l ++ '\n' :: streamOf ls

/-- The event of a line for which `parseTestOutput` returns a nil error, the
only case in which `main` goes on to `CreateTrace`. -/
def acceptedEvent (line : String) : Option TestOutput :=
  match parseTestOutput line with
  | (some testOutput, none) => some testOutput
  | _ => none

/-- The accepted events of a sequence of lines, in input order.  Each line is
parsed with its newline, as `ReadString` returns it. -/
def acceptedEvents (lines : List (List Char)) : List TestOutput :=
  lines.filterMap (fun l => acceptedEvent (String.mk (l ++ ['\n'])))

/-- The tracer after `CreateTrace` was called on each event in turn. -/
def createTraces (events : List TestOutput) (t : TracerState) : TracerState :=
  events.foldl (fun acc e => CreateTrace e acc) t

/-- The record of a span: its serialization followed by one newline (empty when
the span cannot be serialized). -/
def recordOf {α : Type} (marshal : List (String × MapValue α) → Except GoError (List Char))
    (span : ReadOnlySpan α) : List Char :=
  match marshal (spanData span) with
  | .ok jsonData => jsonData ++ ['\n']
  | .error _ => []

/-- The records of a list of spans, concatenated in order. -/
def recordsOf {α : Type} (marshal : List (String × MapValue α) → Except GoError (List Char)) :
    List (ReadOnlySpan α) → List Char
  | [] => []
  | span :: spans => recordOf marshal span ++ recordsOf marshal spans

/-- The `Write` calls a complete export of the spans consists of: for each
span its serialization, then a newline. -/
def writesOf {α : Type} (marshal : List (String × MapValue α) → Except GoError (List Char)) :
    List (ReadOnlySpan α) → List (List Char)
  | [] => []
  | span :: spans =>
    match marshal (spanData span) with
    | .ok jsonData => jsonData :: ['\n'] :: writesOf marshal spans
    | .error _ => writesOf marshal spans

/-- The scenario line of the specification that yields a span, without its
newline. -/
def passLine : List Char :=
  "\x7b\"Time\":\"t1\",\"Action\":\"output\",\"Package\":\"pkgA\",\"Test\":\"TestFoo\",\"Output\":\"--- PASS: TestFoo\"\x7d".data

/-- The scenario line of the specification that is ignored, without its
newline. -/
def runLine : List Char :=
  "\x7b\"Time\":\"t1\",\"Action\":\"run\",\"Package\":\"pkgA\",\"Test\":\"TestFoo\",\"Output\":\"\"\x7d".data

/-- A serializer for the examples.  The values of the tracing SDK are given by
their JSON text, strings are taken to need no escaping, and the entries are
written in the order given.  An empty SDK value cannot be serialized. -/
def sampleMarshal (m : List (String × MapValue String)) : Except GoError (List Char) :=
  if m.any (fun kv => match kv.2 with
      | .sdk v => v.isEmpty
      | .str _ => false) then
    .error (.other "json: unsupported value")
  else
    .ok (['{'] ++ List.intercalate [','] (m.map (fun kv => ['"'] ++ kv.1.data ++ ['"', ':'] ++
        (match kv.2 with
          | .str s => ['"'] ++ s.data ++ ['"']
          | .sdk v => v.data))) ++ ['}'])

/-- A span for the examples. -/
def sampleSpan (name : String) : ReadOnlySpan String :=
  { traceID := "0af7651916cd43dd8448eb211c80319c", spanID := "b7ad6b7169203331", name := name,
    attributes := "[]", events := "null", links := "null", status := "\x7b\x7d" }

/-- A writer for the examples: empty so far, it fails on the call number
`failAt` (counted from zero) after accepting `accepted` bytes of it, and
succeeds on every other call. -/
def sampleWriter (failAt accepted : Nat) : Writer :=
  { sink := [], log := [],
    policy := fun log _ =>
      if log.length = failAt then some (accepted, GoError.other "disk full") else none }

/-- A writer that never fails. -/
def okWriter : Writer := { sink := [], log := [], policy := fun _ _ => none }

/-! ## Basic facts about the library models -/

set_option maxRecDepth 100000

/-- The scan finds `sub` exactly when `sub` is a contiguous part of `s`. -/
theorem containsAt_iff (s sub : List Char) : containsAt s sub = true ↔ sub <:+: s := by
  induction s with
  | nil => simp [containsAt, List.infix_nil]
  | cons c cs ih =>
    simp only [containsAt, Bool.or_eq_true, ih, List.infix_cons_iff, List.isPrefixOf_iff_prefix]

/-- The model of `strings.Contains` decides the substring relation. -/
theorem stringsContains_iff (s sub : String) :
    stringsContains s sub = true ↔ sub.data <:+: s.data := by
  unfold stringsContains; exact containsAt_iff _ _

/-- Splitting at the first delimiter of a text whose head has none. -/
theorem splitAtDelim_line (delim : Char) (body rest : List Char) (h : delim ∉ body) :
    splitAtDelim delim (body ++ delim :: rest) = some (body ++ [delim], rest) := by
  induction body with
  | nil => simp [splitAtDelim]
  | cons c cs ih =>
    have hc : c ≠ delim := fun e => h (by simp [e])
    have hcs : delim ∉ cs := fun e => h (by simp [e])
    simp [splitAtDelim, hc, ih hcs]

/-- No delimiter, no split. -/
theorem splitAtDelim_none (delim : Char) (body : List Char) (h : delim ∉ body) :
    splitAtDelim delim body = none := by
  induction body with
  | nil => simp [splitAtDelim]
  | cons c cs ih =>
    have hc : c ≠ delim := fun e => h (by simp [e])
    have hcs : delim ∉ cs := fun e => h (by simp [e])
    simp [splitAtDelim, hc, ih hcs]

/-- Reading a delimiter-terminated line. -/
theorem readString_line (body rest : List Char) (fail : GoError) (h : '\n' ∉ body) :
    (Reader.mk (body ++ '\n' :: rest) fail).ReadString '\n'
      = (String.mk (body ++ ['\n']), ⟨rest, fail⟩, none) := by
  simp [Reader.ReadString, splitAtDelim_line '\n' body rest h]

/-- Reading when no delimiter is left: the rest of the input and the stream error. -/
theorem readString_end (body : List Char) (fail : GoError) (h : '\n' ∉ body) :
    (Reader.mk body fail).ReadString '\n' = (String.mk body, ⟨[], fail⟩, some fail) := by
  simp [Reader.ReadString, splitAtDelim_none '\n' body h]

/-- One iteration of the loop on a newline-terminated line. -/
theorem mainLoop_line (fuel : Nat) (body rest : List Char) (fail : GoError) (t : TracerState)
    (h : '\n' ∉ body) :
    mainLoop (fuel + 1) ⟨body ++ '\n' :: rest, fail⟩ t =
      match parseTestOutput (String.mk (body ++ ['\n'])) with
      | (_, some _) => mainLoop fuel ⟨rest, fail⟩ t
      | (some testOutput, none) => mainLoop fuel ⟨rest, fail⟩ (CreateTrace testOutput t)
      | (none, none) => (.nilDereference, t) := by
  rw [mainLoop]
  simp only [readString_line body rest fail h]

/-- The iteration that finds no newline stops the loop without parsing. -/
theorem mainLoop_end (fuel : Nat) (body : List Char) (fail : GoError) (t : TracerState)
    (h : '\n' ∉ body) :
    mainLoop (fuel + 1) ⟨body, fail⟩ t =
      if fail = GoError.eof then (.finished, t) else (.fatal fail, t) := by
  rw [mainLoop]
  simp only [readString_end body fail h]

/-- Result of `parseTestOutput` when the decoded struct passes both tests. -/
theorem parseTestOutput_of_qualifying (line : String) (event : TestOutput)
    (err : Option JsonError)
    (hdec : jsonUnmarshal line TestOutput.zero = (event, err))
    (hact : event.Action = "output")
    (hout : "PASS".data <:+: event.Output.data ∨ "FAIL".data <:+: event.Output.data) :
    parseTestOutput line = (some event, err.map GoError.json) := by
  have hc : (stringsContains event.Output "PASS" = true) ∨
      (stringsContains event.Output "FAIL" = true) := by
    simpa [stringsContains_iff] using hout
  unfold parseTestOutput
  simp only [hdec, hact, ne_eq, not_true_eq_false, if_false]
  rcases hc with hc | hc <;> simp [hc]

/-- Result of `parseTestOutput` when the decoded struct fails one of the tests. -/
theorem parseTestOutput_of_not_qualifying (line : String) (event : TestOutput)
    (err : Option JsonError)
    (hdec : jsonUnmarshal line TestOutput.zero = (event, err))
    (hrej : event.Action ≠ "output" ∨
      (¬ "PASS".data <:+: event.Output.data ∧ ¬ "FAIL".data <:+: event.Output.data)) :
    parseTestOutput line = (none, some (ignoringLine event.Output)) := by
  unfold parseTestOutput
  simp only [hdec]
  by_cases hact : event.Action = "output"
  · rcases hrej with h | ⟨hp, hf⟩
    · exact absurd hact h
    · have h1 : stringsContains event.Output "PASS" = false := by
        rw [← Bool.not_eq_true, stringsContains_iff]; exact hp
      have h2 : stringsContains event.Output "FAIL" = false := by
        rw [← Bool.not_eq_true, stringsContains_iff]; exact hf
      simp [hact, h1, h2]
  · simp [hact]

/-! ## Accepted lines -/

/-- C1: a line that decodes without error into an event with `Action` equal to
`"output"` and `Output` containing `PASS` or `FAIL` is returned by
`parseTestOutput` with a nil error, and `CreateTrace` on that event starts one
span, named `event.Test`, carrying exactly the attributes `package`, `action`
and `output` of the event. -/
theorem parseTestOutput_accepts_then_one_span (line : String) (event : TestOutput)
    (t : TracerState)
    (hdec : jsonUnmarshal line TestOutput.zero = (event, none))
    (hact : event.Action = "output")
    (hout : "PASS".data <:+: event.Output.data ∨ "FAIL".data <:+: event.Output.data) :
    parseTestOutput line = (some event, none)
    ∧ (CreateTrace event t).started = t.started + 1
    ∧ (CreateTrace event t).ended = t.ended ++
        [⟨event.Test, [("package", event.Package), ("action", event.Action),
          ("output", event.Output)]⟩] := by
  refine ⟨?_, rfl, rfl⟩
  simpa using parseTestOutput_of_qualifying line event none hdec hact hout

/-- The line of the specification's scenario gives one span named `TestFoo`
with `package=pkgA`, `action=output`, `output=--- PASS: TestFoo`. -/
theorem parseTestOutput_accepts_then_one_span_witness :
    jsonUnmarshal "\x7b\"Time\":\"t1\",\"Action\":\"output\",\"Package\":\"pkgA\",\"Test\":\"TestFoo\",\"Output\":\"--- PASS: TestFoo\"\x7d\n" TestOutput.zero
        = (⟨"t1", "output", "pkgA", "TestFoo", "--- PASS: TestFoo"⟩, none)
    ∧ parseTestOutput "\x7b\"Time\":\"t1\",\"Action\":\"output\",\"Package\":\"pkgA\",\"Test\":\"TestFoo\",\"Output\":\"--- PASS: TestFoo\"\x7d\n"
        = (some ⟨"t1", "output", "pkgA", "TestFoo", "--- PASS: TestFoo"⟩, none)
    ∧ (CreateTrace ⟨"t1", "output", "pkgA", "TestFoo", "--- PASS: TestFoo"⟩ TracerState.init).started = 1
    ∧ (CreateTrace ⟨"t1", "output", "pkgA", "TestFoo", "--- PASS: TestFoo"⟩ TracerState.init).ended
        = [⟨"TestFoo", [("package", "pkgA"), ("action", "output"), ("output", "--- PASS: TestFoo")]⟩] :=
  ⟨by decide,
    parseTestOutput_accepts_then_one_span _ ⟨"t1", "output", "pkgA", "TestFoo", "--- PASS: TestFoo"⟩
      TracerState.init (by decide) (by decide) (Or.inl (by decide))⟩

/-! ## Rejected lines -/

/-- A struct returned by `parseTestOutput` is the decoded struct, and it passed
both tests. -/
theorem parseTestOutput_some (line : String) (event : TestOutput) (err : Option GoError)
    (h : parseTestOutput line = (some event, err)) :
    event = (jsonUnmarshal line TestOutput.zero).1
    ∧ err = (jsonUnmarshal line TestOutput.zero).2.map GoError.json
    ∧ event.Action = "output"
    ∧ ("PASS".data <:+: event.Output.data ∨ "FAIL".data <:+: event.Output.data) := by
  unfold parseTestOutput at h
  by_cases hact : (jsonUnmarshal line TestOutput.zero).1.Action = "output"
  · by_cases hc : (!stringsContains (jsonUnmarshal line TestOutput.zero).1.Output "PASS"
        && !stringsContains (jsonUnmarshal line TestOutput.zero).1.Output "FAIL") = true
    · simp [hact, hc] at h
    · simp only [hact, ne_eq, not_true_eq_false, if_false, hc] at h
      have h1 := (Prod.mk.inj h).1
      have h2 := (Prod.mk.inj h).2
      have h3 : (jsonUnmarshal line TestOutput.zero).1 = event := Option.some.inj h1
      subst h3
      refine ⟨rfl, h2.symm, hact, ?_⟩
      simp only [Bool.and_eq_true, Bool.not_eq_true', not_and, Bool.not_eq_false] at hc
      by_cases hp : stringsContains (jsonUnmarshal line TestOutput.zero).1.Output "PASS" = true
      · exact Or.inl ((stringsContains_iff _ _).1 hp)
      · exact Or.inr ((stringsContains_iff _ _).1 (hc (by simpa using hp)))
  · simp [hact] at h

/-- The results of `parseTestOutput` never are a nil struct with a nil error. -/
theorem parseTestOutput_ne_nil_nil (line : String) : parseTestOutput line ≠ (none, none) := by
  unfold parseTestOutput
  simp only []
  split_ifs <;> simp

/-- C2: a line that decodes without error but whose `Action` is not `"output"`,
or whose `Output` contains neither `PASS` nor `FAIL`, makes `parseTestOutput`
return a nil event with the `ignoring line` error, and the iteration of the
main loop that reads this line leaves the tracer as it was. -/
theorem parseTestOutput_ignores_then_no_span (line : String) (event : TestOutput)
    (hdec : jsonUnmarshal line TestOutput.zero = (event, none))
    (hrej : event.Action ≠ "output" ∨
      (¬ "PASS".data <:+: event.Output.data ∧ ¬ "FAIL".data <:+: event.Output.data)) :
    parseTestOutput line = (none, some (ignoringLine event.Output))
    ∧ ∀ (body rest : List Char) (fail : GoError) (fuel : Nat) (t : TracerState),
        line.data = body ++ ['\n'] → '\n' ∉ body →
        mainLoop (fuel + 1) ⟨body ++ '\n' :: rest, fail⟩ t = mainLoop fuel ⟨rest, fail⟩ t := by
  have hp := parseTestOutput_of_not_qualifying line event none hdec hrej
  refine ⟨hp, ?_⟩
  intro body rest fail fuel t hline hbody
  have hl : String.mk (body ++ ['\n']) = line := by rw [← hline]
  rw [mainLoop_line fuel body rest fail t hbody, hl, hp]

/-- The `run` line of the specification's scenario is rejected and yields no
span. -/
theorem parseTestOutput_ignores_then_no_span_witness :
    jsonUnmarshal "\x7b\"Time\":\"t1\",\"Action\":\"run\",\"Package\":\"pkgA\",\"Test\":\"TestFoo\",\"Output\":\"\"\x7d\n" TestOutput.zero
        = (⟨"t1", "run", "pkgA", "TestFoo", ""⟩, none)
    ∧ parseTestOutput "\x7b\"Time\":\"t1\",\"Action\":\"run\",\"Package\":\"pkgA\",\"Test\":\"TestFoo\",\"Output\":\"\"\x7d\n"
        = (none, some (GoError.errorf "ignoring line "))
    ∧ main ⟨"\x7b\"Time\":\"t1\",\"Action\":\"run\",\"Package\":\"pkgA\",\"Test\":\"TestFoo\",\"Output\":\"\"\x7d\n".data, GoError.eof⟩
        = (Exit.finished, TracerState.init) :=
  have h := parseTestOutput_ignores_then_no_span
    "\x7b\"Time\":\"t1\",\"Action\":\"run\",\"Package\":\"pkgA\",\"Test\":\"TestFoo\",\"Output\":\"\"\x7d\n"
    ⟨"t1", "run", "pkgA", "TestFoo", ""⟩ (by decide) (Or.inl (by decide))
  ⟨by decide, h.1,
    (h.2 "\x7b\"Time\":\"t1\",\"Action\":\"run\",\"Package\":\"pkgA\",\"Test\":\"TestFoo\",\"Output\":\"\"\x7d".data
      [] GoError.eof _ TracerState.init (by decide) (by decide)).trans (by decide)⟩

/-- A line that is not valid JSON leaves the struct empty, so the first test of
`parseTestOutput` rejects it with the `ignoring line` error. -/
theorem parseTestOutput_of_syntax_error (line : String) (h : parseJSON line = none) :
    jsonUnmarshal line TestOutput.zero = (TestOutput.zero, some JsonError.syntaxError)
    ∧ parseTestOutput line = (none, some (ignoringLine "")) := by
  have hu : jsonUnmarshal line TestOutput.zero = (TestOutput.zero, some JsonError.syntaxError) := by
    simp [jsonUnmarshal, h]
  exact ⟨hu, parseTestOutput_of_not_qualifying line _ _ hu (Or.inl (by decide))⟩

/-- The decode error reaches the caller when a type error leaves `Action` and
`Output` qualifying; the struct is returned along with it. -/
theorem parseTestOutput_type_error_example :
    parseTestOutput "\x7b\"Time\":5,\"Action\":\"output\",\"Output\":\"PASS\"\x7d\n"
      = (some ⟨"", "output", "", "", "PASS"⟩,
          some (GoError.json (JsonError.unmarshalTypeError "number" "Time"))) := by
  decide

/-- C3, evaluated on the code: a line cut short before its closing brace is not
valid JSON, the decoder reports a syntax error and leaves the struct empty, and
`parseTestOutput` then returns the `ignoring line` error, the very result it
returns for the well-formed `run` line, instead of the decode error. -/
theorem parseTestOutput_malformed_reported_as_ignored :
    jsonUnmarshal "\x7b\"Time\":\"t1\",\"Action\":\"output\",\"Package\":\"pkgA\",\"Test\":\"TestFoo\",\"Output\":\"--- PASS: TestFoo\"\n" TestOutput.zero
        = (TestOutput.zero, some JsonError.syntaxError)
    ∧ parseTestOutput "\x7b\"Time\":\"t1\",\"Action\":\"output\",\"Package\":\"pkgA\",\"Test\":\"TestFoo\",\"Output\":\"--- PASS: TestFoo\"\n"
        = (none, some (ignoringLine ""))
    ∧ jsonUnmarshal "\x7b\"Time\":\"t1\",\"Action\":\"run\",\"Package\":\"pkgA\",\"Test\":\"TestFoo\",\"Output\":\"\"\x7d\n" TestOutput.zero
        = (⟨"t1", "run", "pkgA", "TestFoo", ""⟩, none)
    ∧ parseTestOutput "\x7b\"Time\":\"t1\",\"Action\":\"run\",\"Package\":\"pkgA\",\"Test\":\"TestFoo\",\"Output\":\"\"\x7d\n"
        = (none, some (ignoringLine "")) := by
  decide

/-! ## Missing and extra fields -/

/-- Assigning one field leaves the others as they are. -/
theorem set_get_of_ne (v : TestOutput) (f g : Field) (s : String) (h : g ≠ f) :
    (v.set g s).get f = v.get f := by
  cases f <;> cases g <;> first | rfl | exact absurd rfl h

/-- Decoding into one field leaves the others as they are. -/
theorem storeValue_get_of_ne (v : TestOutput) (f g : Field) (j : JSON) (h : g ≠ f) :
    (storeValue v g j).1.get f = v.get f := by
  cases j <;> simp [storeValue, set_get_of_ne v f g _ h]

/-- Members are decoded from left to right. -/
theorem decodeMembers_append (a b : List (String × JSON)) (acc : TestOutput × Option JsonError) :
    decodeMembers (a ++ b) acc = decodeMembers b (decodeMembers a acc) := by
  induction a generalizing acc with
  | nil => rfl
  | cons m a ih =>
    obtain ⟨k, j⟩ := m
    obtain ⟨v, saved⟩ := acc
    simp only [List.cons_append, decodeMembers]
    cases findField k <;> simp [ih]

/-- A field no member addresses keeps its value. -/
theorem decodeMembers_get_of_missing (members : List (String × JSON))
    (acc : TestOutput × Option JsonError) (f : Field)
    (h : ∀ m ∈ members, findField m.1 ≠ some f) :
    (decodeMembers members acc).1.get f = acc.1.get f := by
  induction members generalizing acc with
  | nil => rfl
  | cons m ms ih =>
    obtain ⟨k, j⟩ := m
    obtain ⟨v, saved⟩ := acc
    have hk : findField k ≠ some f := h (k, j) (by simp)
    have hms : ∀ m ∈ ms, findField m.1 ≠ some f := fun m hm => h m (by simp [hm])
    simp only [decodeMembers]
    cases hf : findField k with
    | none => simpa using ih (v, saved) hms
    | some g =>
      have hg : g ≠ f := fun e => hk (by rw [hf, e])
      simp only []
      rw [ih _ hms]
      exact storeValue_get_of_ne v f g j hg

/-- No type error arises from string and `null` values. -/
theorem decodeMembers_no_error (members : List (String × JSON)) (v : TestOutput)
    (h : ∀ m ∈ members, findField m.1 = none ∨ (∃ s, m.2 = JSON.string s) ∨ m.2 = JSON.null) :
    (decodeMembers members (v, none)).2 = none := by
  induction members generalizing v with
  | nil => rfl
  | cons m ms ih =>
    obtain ⟨k, j⟩ := m
    have hms : ∀ m ∈ ms, findField m.1 = none ∨ (∃ s, m.2 = JSON.string s) ∨ m.2 = JSON.null :=
      fun m hm => h m (by simp [hm])
    simp only [decodeMembers]
    cases hf : findField k with
    | none => simpa using ih v hms
    | some g =>
      simp only []
      rcases h (k, j) (by simp) with h1 | ⟨s, h2⟩ | h3
      · simp [hf] at h1
      · simp only at h2; subst h2
        simpa [storeValue, saveError] using ih _ hms
      · simp only at h3; subst h3
        simpa [storeValue, saveError] using ih _ hms

/-- A member whose key addresses no field is skipped. -/
theorem decodeMembers_skip (before after : List (String × JSON)) (k : String) (j : JSON)
    (acc : TestOutput × Option JsonError) (hk : findField k = none) :
    decodeMembers (before ++ (k, j) :: after) acc = decodeMembers (before ++ after) acc := by
  rw [decodeMembers_append, decodeMembers_append]
  obtain ⟨v, saved⟩ := decodeMembers before acc
  simp [decodeMembers, hk]

/-- Decoding of a text that denotes an object. -/
theorem jsonUnmarshal_object (line : String) (members : List (String × JSON)) (v : TestOutput)
    (h : parseJSON line = some (.object members)) :
    jsonUnmarshal line v = decodeMembers members (v, none) := by
  simp [jsonUnmarshal, h]

/-- C4 fails as stated: the line `{"Action":"output","Output":"PASS"}` is a
well-formed JSON object without the fields `Time`, `Package` and `Test`, and
`parseTestOutput` returns an event for it with a nil error. -/
theorem parseTestOutput_missing_fields_accepted :
    (∃ members, parseJSON "\x7b\"Action\":\"output\",\"Output\":\"PASS\"\x7d\n" = some (.object members)
      ∧ members.map Prod.fst = ["Action", "Output"])
    ∧ parseTestOutput "\x7b\"Action\":\"output\",\"Output\":\"PASS\"\x7d\n"
        = (some ⟨"", "output", "", "", "PASS"⟩, none) :=
  ⟨⟨[("Action", .string "output"), ("Output", .string "PASS")], rfl, rfl⟩, by decide⟩

/-- C4, amended: for a well-formed JSON object line a missing field is no
error.  A field that no member addresses is left empty; the decoder reports an
error only when some member that addresses a field has a value that is neither
a string nor `null`; a line without `Action` gets the `ignoring line` rejection;
and an extra member whose key addresses no field does not change the result of
`parseTestOutput`. -/
theorem parseTestOutput_missing_and_extra_fields (line : String)
    (members : List (String × JSON)) (hobj : parseJSON line = some (.object members)) :
    (∀ f : Field, (∀ m ∈ members, findField m.1 ≠ some f) →
        (jsonUnmarshal line TestOutput.zero).1.get f = "")
    ∧ ((∀ m ∈ members, findField m.1 = none ∨ (∃ s, m.2 = JSON.string s) ∨ m.2 = JSON.null) →
        (jsonUnmarshal line TestOutput.zero).2 = none)
    ∧ ((∀ m ∈ members, findField m.1 ≠ some Field.Action) →
        parseTestOutput line
          = (none, some (ignoringLine (jsonUnmarshal line TestOutput.zero).1.Output)))
    ∧ (∀ (line' : String) (before after : List (String × JSON)) (k : String) (j : JSON),
        members = before ++ after → findField k = none →
        parseJSON line' = some (.object (before ++ (k, j) :: after)) →
        parseTestOutput line' = parseTestOutput line) := by
  have hu := jsonUnmarshal_object line members TestOutput.zero hobj
  refine ⟨?_, ?_, ?_, ?_⟩
  · intro f hf
    rw [hu, decodeMembers_get_of_missing members _ f hf]
    cases f <;> rfl
  · intro h
    rw [hu]
    exact decodeMembers_no_error members _ h
  · intro hf
    have hA : (jsonUnmarshal line TestOutput.zero).1.Action = "" := by
      have := decodeMembers_get_of_missing members (TestOutput.zero, none) Field.Action hf
      rw [hu]; exact this
    exact parseTestOutput_of_not_qualifying line _ _ rfl (Or.inl (by rw [hA]; decide))
  · intro line' before after k j hm hk hobj'
    have hu' := jsonUnmarshal_object line' _ TestOutput.zero hobj'
    have : jsonUnmarshal line' TestOutput.zero = jsonUnmarshal line TestOutput.zero := by
      rw [hu', hu, hm, decodeMembers_skip before after k j _ hk]
    unfold parseTestOutput
    rw [this]

/-- The amended C4 on the line `{"Action":"output","Output":"PASS"}`, and on the
same line with an `Elapsed` member added. -/
theorem parseTestOutput_missing_and_extra_fields_witness :
    parseJSON "\x7b\"Action\":\"output\",\"Output\":\"PASS\"\x7d\n"
        = some (.object [("Action", .string "output"), ("Output", .string "PASS")])
    ∧ (jsonUnmarshal "\x7b\"Action\":\"output\",\"Output\":\"PASS\"\x7d\n" TestOutput.zero).1.get Field.Test = ""
    ∧ (jsonUnmarshal "\x7b\"Action\":\"output\",\"Output\":\"PASS\"\x7d\n" TestOutput.zero).2 = none
    ∧ parseTestOutput "\x7b\"Action\":\"output\",\"Elapsed\":0.5,\"Output\":\"PASS\"\x7d\n"
        = parseTestOutput "\x7b\"Action\":\"output\",\"Output\":\"PASS\"\x7d\n" :=
  have h := parseTestOutput_missing_and_extra_fields
    "\x7b\"Action\":\"output\",\"Output\":\"PASS\"\x7d\n"
    [("Action", .string "output"), ("Output", .string "PASS")] rfl
  ⟨rfl, h.1 Field.Test (by decide), h.2.1 (by simp [findField]),
    h.2.2.2 "\x7b\"Action\":\"output\",\"Elapsed\":0.5,\"Output\":\"PASS\"\x7d\n"
      [("Action", .string "output")] [("Output", .string "PASS")] "Elapsed" (.number "0.5")
      rfl (by decide) rfl⟩

/-! ## The shape of a created span -/

/-- C8 fails as stated: the package-level line
`{"Time":"t1","Action":"output","Package":"pkgA","Output":"PASS\n"}` is accepted
with a nil error, and the span `CreateTrace` makes of it has the empty name. -/
theorem created_span_name_empty :
    parseTestOutput "\x7b\"Time\":\"t1\",\"Action\":\"output\",\"Package\":\"pkgA\",\"Output\":\"PASS\\n\"\x7d\n"
        = (some ⟨"t1", "output", "pkgA", "", "PASS\n"⟩, none)
    ∧ (CreateTrace ⟨"t1", "output", "pkgA", "", "PASS\n"⟩ TracerState.init).ended
        = [⟨"", [("package", "pkgA"), ("action", "output"), ("output", "PASS\n")]⟩] := by
  decide

/-- C8, amended: the span made for an event that `parseTestOutput` accepted with
a nil error is named `event.Test`, so its name is non-empty exactly when the
event names a test, and it carries exactly the three attributes `package`,
`action` and `output`, where `action` is `"output"` and `output` contains `PASS`
or `FAIL`. -/
theorem created_span_shape (line : String) (event : TestOutput) (t : TracerState)
    (hacc : parseTestOutput line = (some event, none)) :
    ∃ s : Span, (CreateTrace event t).ended = t.ended ++ [s]
      ∧ s.name = event.Test
      ∧ (s.name ≠ "" ↔ event.Test ≠ "")
      ∧ s.attributes = [("package", event.Package), ("action", "output"), ("output", event.Output)]
      ∧ ("PASS".data <:+: event.Output.data ∨ "FAIL".data <:+: event.Output.data) := by
  obtain ⟨_, _, hact, hout⟩ := parseTestOutput_some line event none hacc
  refine ⟨⟨event.Test, [("package", event.Package), ("action", event.Action),
    ("output", event.Output)]⟩, rfl, rfl, Iff.rfl, ?_, hout⟩
  rw [hact]

/-- The amended C8 on the scenario line of the specification. -/
theorem created_span_shape_witness :
    parseTestOutput "\x7b\"Time\":\"t1\",\"Action\":\"output\",\"Package\":\"pkgA\",\"Test\":\"TestFoo\",\"Output\":\"--- PASS: TestFoo\"\x7d\n"
        = (some ⟨"t1", "output", "pkgA", "TestFoo", "--- PASS: TestFoo"⟩, none)
    ∧ ∃ s : Span,
      (CreateTrace ⟨"t1", "output", "pkgA", "TestFoo", "--- PASS: TestFoo"⟩ TracerState.init).ended
          = TracerState.init.ended ++ [s]
      ∧ s.name = "TestFoo"
      ∧ (s.name ≠ "" ↔ "TestFoo" ≠ "")
      ∧ s.attributes = [("package", "pkgA"), ("action", "output"), ("output", "--- PASS: TestFoo")]
      ∧ ("PASS".data <:+: "--- PASS: TestFoo".data ∨ "FAIL".data <:+: "--- PASS: TestFoo".data) :=
  ⟨by decide,
    created_span_shape
      "\x7b\"Time\":\"t1\",\"Action\":\"output\",\"Package\":\"pkgA\",\"Test\":\"TestFoo\",\"Output\":\"--- PASS: TestFoo\"\x7d\n"
      ⟨"t1", "output", "pkgA", "TestFoo", "--- PASS: TestFoo"⟩ TracerState.init (by decide)⟩

/-! ## The line loop -/

/-- A stream has at least as many bytes as lines. -/
theorem streamOf_length (lines : List (List Char)) : lines.length ≤ (streamOf lines).length := by
  induction lines with
  | nil => simp [streamOf]
  | cons l ls ih => simp only [streamOf, List.length_append, List.length_cons]; omega

/-- The stream of a concatenation of line sequences. -/
theorem streamOf_append (l1 l2 : List (List Char)) :
    streamOf (l1 ++ l2) = streamOf l1 ++ streamOf l2 := by
  induction l1 with
  | nil => rfl
  | cons l ls ih => simp [streamOf, ih]

/-- Spans ended after a sequence of `CreateTrace` calls. -/
theorem createTraces_ended (events : List TestOutput) (t : TracerState) :
    (createTraces events t).ended = t.ended ++ events.map (fun e =>
      (⟨e.Test, [("package", e.Package), ("action", e.Action), ("output", e.Output)]⟩ : Span)) := by
  induction events generalizing t with
  | nil => simp [createTraces]
  | cons e es ih =>
    have := ih (CreateTrace e t)
    simp only [createTraces, List.foldl_cons] at this ⊢
    rw [this]
    simp [CreateTrace, TracerState.End, TracerState.Start, Span.SetAttributes]

/-- The accepted events of a concatenation of line sequences. -/
theorem acceptedEvents_append (l1 l2 : List (List Char)) :
    acceptedEvents (l1 ++ l2) = acceptedEvents l1 ++ acceptedEvents l2 := by
  simp [acceptedEvents, List.filterMap_append]

/-- A line for which `parseTestOutput` returns an error is not accepted. -/
theorem acceptedEvent_of_error (line : String) (h : (parseTestOutput line).2 ≠ none) :
    acceptedEvent line = none := by
  unfold acceptedEvent
  rcases hp : parseTestOutput line with ⟨ev, err⟩
  rw [hp] at h
  cases err with
  | none => exact absurd rfl h
  | some e => cases ev <;> rfl

/-- The loop over a stream of newline-terminated lines followed by a last piece
without newline: with enough fuel every line is parsed, the accepted events go
to `CreateTrace` in order, and the loop stops at the last piece. -/
theorem mainLoop_stream (lines : List (List Char)) (tail : List Char) (fail : GoError)
    (hl : ∀ l ∈ lines, '\n' ∉ l) (ht : '\n' ∉ tail) :
    ∀ (fuel : Nat) (t : TracerState), lines.length + 1 ≤ fuel →
      mainLoop fuel ⟨streamOf lines ++ tail, fail⟩ t =
        (if fail = GoError.eof then Exit.finished else Exit.fatal fail,
          createTraces (acceptedEvents lines) t) := by
  induction lines with
  | nil =>
    intro fuel t hf
    obtain ⟨n, rfl⟩ : ∃ n, fuel = n + 1 := ⟨fuel - 1, by simp at hf; omega⟩
    simp only [streamOf, List.nil_append]
    rw [mainLoop_end n tail fail t ht]
    by_cases h : fail = GoError.eof <;> simp [h, acceptedEvents, createTraces]
  | cons l ls ih =>
    intro fuel t hf
    obtain ⟨n, rfl⟩ : ∃ n, fuel = n + 1 := ⟨fuel - 1, by simp at hf; omega⟩
    have hl' : '\n' ∉ l := hl l (by simp)
    have hls : ∀ x ∈ ls, '\n' ∉ x := fun x hx => hl x (by simp [hx])
    have hn : ls.length + 1 ≤ n := by simp at hf; omega
    have hs : streamOf (l :: ls) ++ tail = l ++ '\n' :: (streamOf ls ++ tail) := by
      simp [streamOf]
    rw [hs, mainLoop_line n l _ fail t hl']
    have hacc : acceptedEvents (l :: ls) =
        (match acceptedEvent (String.mk (l ++ ['\n'])) with
          | some e => e :: acceptedEvents ls
          | none => acceptedEvents ls) := by
      simp only [acceptedEvents, List.filterMap_cons]
      cases acceptedEvent (String.mk (l ++ ['\n'])) <;> rfl
    rw [hacc]
    rcases hp : parseTestOutput (String.mk (l ++ ['\n'])) with ⟨ev, err⟩
    cases err with
    | some e =>
      have : acceptedEvent (String.mk (l ++ ['\n'])) = none :=
        acceptedEvent_of_error _ (by rw [hp]; simp)
      simp only [this]
      exact ih hls n t hn
    | none =>
      cases ev with
      | none => exact absurd hp (parseTestOutput_ne_nil_nil _)
      | some ev0 =>
        have : acceptedEvent (String.mk (l ++ ['\n'])) = some ev0 := by
          simp [acceptedEvent, hp]
        simp only [this]
        rw [ih hls n (CreateTrace ev0 t) hn]
        simp [createTraces]

/-- The program on a stream of newline-terminated lines followed by a last
piece without newline. -/
theorem main_stream (lines : List (List Char)) (tail : List Char) (fail : GoError)
    (hl : ∀ l ∈ lines, '\n' ∉ l) (ht : '\n' ∉ tail) :
    main ⟨streamOf lines ++ tail, fail⟩ =
      (if fail = GoError.eof then Exit.finished else Exit.fatal fail,
        createTraces (acceptedEvents lines) TracerState.init) := by
  unfold main
  apply mainLoop_stream lines tail fail hl ht
  have := streamOf_length lines
  simp only [List.length_append]
  omega

/-- C7: on every finite sequence of newline-terminated lines followed by end
of input the loop of `main` reaches the end of the stream, and the calls of
`CreateTrace` it makes are exactly those for the events of the lines that
`parseTestOutput` returns with a nil error, in input order.  The spans of a
concatenation are the spans of its parts, and a line that `parseTestOutput`
rejects changes nothing. -/
theorem main_processes_every_line (lines : List (List Char)) (hl : ∀ l ∈ lines, '\n' ∉ l) :
    main ⟨streamOf lines, GoError.eof⟩
        = (Exit.finished, createTraces (acceptedEvents lines) TracerState.init)
    ∧ (∀ l1 l2 : List (List Char), lines = l1 ++ l2 →
        (main ⟨streamOf lines, GoError.eof⟩).2.ended
          = (main ⟨streamOf l1, GoError.eof⟩).2.ended ++ (main ⟨streamOf l2, GoError.eof⟩).2.ended)
    ∧ (∀ (l1 l2 : List (List Char)) (bad : List Char), lines = l1 ++ bad :: l2 →
        (parseTestOutput (String.mk (bad ++ ['\n']))).2 ≠ none →
        main ⟨streamOf lines, GoError.eof⟩ = main ⟨streamOf (l1 ++ l2), GoError.eof⟩) := by
  have key : ∀ ls : List (List Char), (∀ l ∈ ls, '\n' ∉ l) →
      main ⟨streamOf ls, GoError.eof⟩
        = (Exit.finished, createTraces (acceptedEvents ls) TracerState.init) := by
    intro ls h
    have := main_stream ls [] GoError.eof h (by simp)
    simpa using this
  refine ⟨key lines hl, ?_, ?_⟩
  · intro l1 l2 h
    subst h
    have h1 : ∀ l ∈ l1, '\n' ∉ l := fun l hx => hl l (by simp [hx])
    have h2 : ∀ l ∈ l2, '\n' ∉ l := fun l hx => hl l (by simp [hx])
    rw [key _ hl, key _ h1, key _ h2]
    simp [createTraces_ended, acceptedEvents_append, TracerState.init]
  · intro l1 l2 bad h hbad
    subst h
    have h12 : ∀ l ∈ l1 ++ l2, '\n' ∉ l := by
      intro l hx
      rcases List.mem_append.1 hx with hx | hx
      · exact hl l (by simp [hx])
      · exact hl l (by simp [hx])
    rw [key _ hl, key _ h12]
    have : acceptedEvents (l1 ++ bad :: l2) = acceptedEvents (l1 ++ l2) := by
      rw [acceptedEvents_append, acceptedEvents_append]
      congr 1
      simp [acceptedEvents, List.filterMap_cons, acceptedEvent_of_error _ hbad]
    rw [this]

/-- C9: a last piece of input that no newline terminates is never parsed.  The
loop stops on it, and the program behaves as on the newline-terminated lines
before it, whatever the piece is. -/
theorem main_skips_unterminated_last_line (lines : List (List Char)) (tail : List Char)
    (hl : ∀ l ∈ lines, '\n' ∉ l) (ht : '\n' ∉ tail) :
    main ⟨streamOf lines ++ tail, GoError.eof⟩
        = (Exit.finished, createTraces (acceptedEvents lines) TracerState.init)
    ∧ main ⟨streamOf lines ++ tail, GoError.eof⟩ = main ⟨streamOf lines, GoError.eof⟩ := by
  have h1 := main_stream lines tail GoError.eof hl ht
  have h2 := main_stream lines [] GoError.eof hl (by simp)
  simp only [List.append_nil, if_true] at h1 h2
  exact ⟨h1, h1.trans h2.symm⟩

/-- C7 on four lines: the scenario line, a line that is not JSON, the `run`
line, and the scenario line again. -/
theorem main_processes_every_line_witness :
    (∀ l ∈ [passLine, ['o', 'o', 'p', 's'], runLine, passLine], '\n' ∉ l)
    ∧ main ⟨streamOf [passLine, ['o', 'o', 'p', 's'], runLine, passLine], GoError.eof⟩
        = (Exit.finished,
            ⟨2, [⟨"TestFoo", [("package", "pkgA"), ("action", "output"),
                  ("output", "--- PASS: TestFoo")]⟩,
                ⟨"TestFoo", [("package", "pkgA"), ("action", "output"),
                  ("output", "--- PASS: TestFoo")]⟩]⟩) :=
  ⟨by decide,
    (main_processes_every_line [passLine, ['o', 'o', 'p', 's'], runLine, passLine]
      (by decide)).1.trans (by decide)⟩

/-- C9 on the `run` line followed by the scenario line without its newline:
no span, though the last piece is a qualifying event. -/
theorem main_skips_unterminated_last_line_witness :
    (∀ l ∈ [runLine], '\n' ∉ l) ∧ '\n' ∉ passLine
    ∧ acceptedEvent (String.mk passLine)
        = some ⟨"t1", "output", "pkgA", "TestFoo", "--- PASS: TestFoo"⟩
    ∧ main ⟨streamOf [runLine] ++ passLine, GoError.eof⟩ = (Exit.finished, TracerState.init) :=
  ⟨by decide, by decide, by decide,
    (main_skips_unterminated_last_line [runLine] passLine (by decide) (by decide)).1.trans
      (by decide)⟩

/-! ## The exporter -/

/-- A `Write` that returns a nil error has written the whole slice. -/
theorem write_ok (w : Writer) (p : List Char) (h : (w.Write p).2.2 = none) :
    w.policy w.log p = none
    ∧ (w.Write p).1 = { sink := w.sink ++ p, log := w.log ++ [p], policy := w.policy } := by
  unfold Writer.Write at h ⊢
  cases hp : w.policy w.log p with
  | none => simp
  | some r => rw [hp] at h; simp at h

/-- A `Write` that returns an error has written a prefix of the slice. -/
theorem write_err (w : Writer) (p : List Char) (e : GoError) (h : (w.Write p).2.2 = some e) :
    ∃ n, w.policy w.log p = some (n, e)
      ∧ (w.Write p).1 = { sink := w.sink ++ p.take n, log := w.log ++ [p], policy := w.policy } := by
  unfold Writer.Write at h ⊢
  cases hp : w.policy w.log p with
  | none => rw [hp] at h; simp at h
  | some r =>
    obtain ⟨n, e'⟩ := r
    rw [hp] at h
    simp only [Option.some.injEq] at h
    subst h
    exact ⟨n, rfl, rfl⟩

/-- Records of a concatenation. -/
theorem recordsOf_append {α : Type}
    (marshal : List (String × MapValue α) → Except GoError (List Char))
    (a b : List (ReadOnlySpan α)) :
    recordsOf marshal (a ++ b) = recordsOf marshal a ++ recordsOf marshal b := by
  induction a with
  | nil => rfl
  | cons s a ih => simp [recordsOf, ih]

/-- Writes of a concatenation. -/
theorem writesOf_append {α : Type}
    (marshal : List (String × MapValue α) → Except GoError (List Char))
    (a b : List (ReadOnlySpan α)) :
    writesOf marshal (a ++ b) = writesOf marshal a ++ writesOf marshal b := by
  induction a with
  | nil => rfl
  | cons s a ih =>
    simp only [List.cons_append, writesOf]
    cases marshal (spanData s) <;> simp [ih]

/-- An export that returns nil serialized every span and wrote every record,
one `Write` for the serialization and one for the newline. -/
theorem exportSpans_ok {α : Type}
    (marshal : List (String × MapValue α) → Except GoError (List Char))
    (spans : List (ReadOnlySpan α)) :
    ∀ (w w' : Writer), ExportSpans marshal w spans = (w', none) →
      (∀ s ∈ spans, ∃ b, marshal (spanData s) = .ok b)
      ∧ w' = { sink := w.sink ++ recordsOf marshal spans,
               log := w.log ++ writesOf marshal spans, policy := w.policy } := by
  induction spans with
  | nil =>
    intro w w' h
    simp only [ExportSpans, Prod.mk.injEq, and_true] at h
    subst h
    simp [recordsOf, writesOf]
  | cons s ss ih =>
    intro w w' h
    rw [ExportSpans] at h
    cases hm : marshal (spanData s) with
    | error e => rw [hm] at h; simp at h
    | ok b =>
      rw [hm] at h
      simp only at h
      cases h1 : (w.Write b).2.2 with
      | some e => rw [h1] at h; simp at h
      | none =>
        rw [h1] at h
        simp only at h
        cases h2 : ((w.Write b).1.Write ['\n']).2.2 with
        | some e => rw [h2] at h; simp at h
        | none =>
          rw [h2] at h
          simp only at h
          obtain ⟨hs, hw'⟩ := ih _ _ h
          obtain ⟨_, e1⟩ := write_ok w b h1
          obtain ⟨_, e2⟩ := write_ok _ _ h2
          refine ⟨?_, ?_⟩
          · intro x hx
            rcases List.mem_cons.1 hx with rfl | hx
            · exact ⟨b, hm⟩
            · exact hs x hx
          · rw [hw', e2, e1]
            simp [recordsOf, recordOf, writesOf, hm]

/-- An export that returns an error went through a first part of the list
without failure and failed in the span after it, at its serialization, at the
`Write` of the serialization, or at the `Write` of the newline. -/
theorem exportSpans_err {α : Type}
    (marshal : List (String × MapValue α) → Except GoError (List Char))
    (spans : List (ReadOnlySpan α)) :
    ∀ (w w' : Writer) (err : GoError), ExportSpans marshal w spans = (w', some err) →
      ∃ (done : List (ReadOnlySpan α)) (failing : ReadOnlySpan α) (rest : List (ReadOnlySpan α))
        (w1 : Writer),
        spans = done ++ failing :: rest
        ∧ ExportSpans marshal w done = (w1, none)
        ∧ ((marshal (spanData failing) = .error err ∧ w' = w1)
          ∨ (∃ b n, marshal (spanData failing) = .ok b ∧ w1.policy w1.log b = some (n, err)
              ∧ w' = { sink := w1.sink ++ b.take n, log := w1.log ++ [b], policy := w1.policy })
          ∨ (∃ b n, marshal (spanData failing) = .ok b ∧ w1.policy w1.log b = none
              ∧ w1.policy (w1.log ++ [b]) ['\n'] = some (n, err)
              ∧ w' = { sink := w1.sink ++ b ++ ['\n'].take n, log := w1.log ++ [b, ['\n']],
                       policy := w1.policy })) := by
  induction spans with
  | nil =>
    intro w w' err h
    simp [ExportSpans] at h
  | cons s ss ih =>
    intro w w' err h
    rw [ExportSpans] at h
    cases hm : marshal (spanData s) with
    | error e =>
      rw [hm] at h
      simp only [Prod.mk.injEq, Option.some.injEq] at h
      obtain ⟨rfl, rfl⟩ := h
      exact ⟨[], s, ss, w, rfl, rfl, Or.inl ⟨hm, rfl⟩⟩
    | ok b =>
      rw [hm] at h
      simp only at h
      cases h1 : (w.Write b).2.2 with
      | some e =>
        rw [h1] at h
        simp only [Prod.mk.injEq, Option.some.injEq] at h
        obtain ⟨rfl, rfl⟩ := h
        obtain ⟨n, hp, hw⟩ := write_err w b e h1
        exact ⟨[], s, ss, w, rfl, rfl, Or.inr (Or.inl ⟨b, n, hm, hp, hw⟩)⟩
      | none =>
        rw [h1] at h
        simp only at h
        obtain ⟨hp1, e1⟩ := write_ok w b h1
        cases h2 : ((w.Write b).1.Write ['\n']).2.2 with
        | some e =>
          rw [h2] at h
          simp only [Prod.mk.injEq, Option.some.injEq] at h
          obtain ⟨rfl, rfl⟩ := h
          obtain ⟨n, hp, hw⟩ := write_err _ _ e h2
          rw [e1] at hp hw
          refine ⟨[], s, ss, w, rfl, rfl, Or.inr (Or.inr ⟨b, n, hm, hp1, hp, ?_⟩)⟩
          rw [e1, hw]
          simp
        | none =>
          rw [h2] at h
          simp only at h
          obtain ⟨done, failing, rest, w1, hsp, hdone, hfail⟩ := ih _ _ _ h
          refine ⟨s :: done, failing, rest, w1, by simp [hsp], ?_, hfail⟩
          rw [ExportSpans, hm]
          simp only [h1, h2]
          exact hdone

/-- A `Write` the destination accepts. -/
theorem write_of_policy_none (w : Writer) (p : List Char) (h : w.policy w.log p = none) :
    w.Write p
      = ({ sink := w.sink ++ p, log := w.log ++ [p], policy := w.policy }, p.length, none) := by
  simp [Writer.Write, h]

/-- When every span can be serialized and the destination accepts each `Write`
of the export, the export returns nil after writing every record. -/
theorem exportSpans_of_ok {α : Type}
    (marshal : List (String × MapValue α) → Except GoError (List Char))
    (spans : List (ReadOnlySpan α)) :
    ∀ w : Writer, (∀ s ∈ spans, ∃ b, marshal (spanData s) = .ok b) →
      (∀ pre p post, writesOf marshal spans = pre ++ p :: post → w.policy (w.log ++ pre) p = none) →
      ExportSpans marshal w spans
        = ({ sink := w.sink ++ recordsOf marshal spans,
             log := w.log ++ writesOf marshal spans, policy := w.policy }, none) := by
  induction spans with
  | nil => intro w _ _; simp [ExportSpans, recordsOf, writesOf]
  | cons s ss ih =>
    intro w hm hw
    obtain ⟨b, hb⟩ := hm s (by simp)
    have hwr : writesOf marshal (s :: ss) = b :: ['\n'] :: writesOf marshal ss := by
      simp [writesOf, hb]
    have h1 : w.policy w.log b = none := by
      have := hw [] b (['\n'] :: writesOf marshal ss) (by simp [hwr])
      simpa using this
    have h2 : w.policy (w.log ++ [b]) ['\n'] = none :=
      hw [b] ['\n'] (writesOf marshal ss) (by simp [hwr])
    have e1 := write_of_policy_none w b h1
    have e2 := write_of_policy_none
      { sink := w.sink ++ b, log := w.log ++ [b], policy := w.policy } ['\n'] h2
    rw [ExportSpans, hb]
    simp only [e1, e2]
    rw [ih _ (fun x hx => hm x (by simp [hx]))]
    · simp [recordsOf, recordOf, hb, hwr]
    · intro pre p post hpre
      have := hw (b :: ['\n'] :: pre) p post (by simp [hwr, hpre])
      simpa using this

/-- Every span contributes two `Write` calls when all can be serialized. -/
theorem writesOf_length {α : Type}
    (marshal : List (String × MapValue α) → Except GoError (List Char))
    (spans : List (ReadOnlySpan α))
    (hm : ∀ s ∈ spans, ∃ b, marshal (spanData s) = .ok b) :
    (writesOf marshal spans).length = 2 * spans.length := by
  induction spans with
  | nil => rfl
  | cons s ss ih =>
    obtain ⟨b, hb⟩ := hm s (by simp)
    have := ih (fun x hx => hm x (by simp [hx]))
    simp only [writesOf, hb, List.length_cons, this]
    omega

/-- The records of spans that can be serialized are empty only for no span. -/
theorem recordsOf_eq_nil {α : Type}
    (marshal : List (String × MapValue α) → Except GoError (List Char))
    (spans : List (ReadOnlySpan α))
    (hm : ∀ s ∈ spans, ∃ b, marshal (spanData s) = .ok b) :
    recordsOf marshal spans = [] ↔ spans = [] := by
  cases spans with
  | nil => simp [recordsOf]
  | cons s ss =>
    obtain ⟨b, hb⟩ := hm s (by simp)
    simp [recordsOf, recordOf, hb]

/-- C6: when every span of the list can be serialized and the writer accepts
every `Write` of the export, `ExportSpans` returns nil and the bytes appended
to the writer are the records of the spans in input order, each record being
the serialization of the span's map followed by one newline.  The map of a span
has exactly the seven keys `traceID`, `spanID`, `name`, `attributes`, `events`,
`links`, `status` with the values of that span.  There are as many records as
spans, written by two `Write` calls each, and an empty batch writes nothing. -/
theorem exportSpans_writes_every_record {α : Type}
    (marshal : List (String × MapValue α) → Except GoError (List Char))
    (w : Writer) (spans : List (ReadOnlySpan α))
    (hm : ∀ s ∈ spans, ∃ b, marshal (spanData s) = .ok b)
    (hw : ∀ pre p post, writesOf marshal spans = pre ++ p :: post →
      w.policy (w.log ++ pre) p = none) :
    (ExportSpans marshal w spans).2 = none
    ∧ (ExportSpans marshal w spans).1.sink = w.sink ++ (spans.map (recordOf marshal)).flatten
    ∧ (∀ s ∈ spans, ∃ b, marshal (spanData s) = .ok b ∧ recordOf marshal s = b ++ ['\n'])
    ∧ (∀ s ∈ spans, spanData s =
        [("traceID", .str s.traceID), ("spanID", .str s.spanID), ("name", .str s.name),
          ("attributes", .sdk s.attributes), ("events", .sdk s.events),
          ("links", .sdk s.links), ("status", .sdk s.status)])
    ∧ (spans.map (recordOf marshal)).length = spans.length
    ∧ (ExportSpans marshal w spans).1.log = w.log ++ writesOf marshal spans
    ∧ (writesOf marshal spans).length = 2 * spans.length
    ∧ ExportSpans marshal w [] = (w, none) := by
  have h := exportSpans_of_ok marshal spans w hm hw
  have hflat : ∀ l : List (ReadOnlySpan α),
      recordsOf marshal l = (l.map (recordOf marshal)).flatten := by
    intro l
    induction l with
    | nil => rfl
    | cons s ss ih => simp [recordsOf, ih]
  refine ⟨by rw [h], by rw [h, ← hflat], ?_, fun _ _ => rfl, by simp, by rw [h],
    writesOf_length marshal spans hm, rfl⟩
  intro s hs
  obtain ⟨b, hb⟩ := hm s hs
  exact ⟨b, hb, by simp [recordOf, hb]⟩

/-- C6 on two spans and a writer that never fails: two records, in order. -/
theorem exportSpans_writes_every_record_witness :
    (∀ s ∈ [sampleSpan "TestFoo", sampleSpan "TestBar"],
        ∃ b, sampleMarshal (spanData s) = .ok b)
    ∧ (ExportSpans sampleMarshal okWriter [sampleSpan "TestFoo", sampleSpan "TestBar"]).2 = none
    ∧ (ExportSpans sampleMarshal okWriter [sampleSpan "TestFoo", sampleSpan "TestBar"]).1.sink
        = ("\x7b\"traceID\":\"0af7651916cd43dd8448eb211c80319c\",\"spanID\":\"b7ad6b7169203331\",\"name\":\"TestFoo\",\"attributes\":[],\"events\":null,\"links\":null,\"status\":\x7b\x7d\x7d\n"
          ++ "\x7b\"traceID\":\"0af7651916cd43dd8448eb211c80319c\",\"spanID\":\"b7ad6b7169203331\",\"name\":\"TestBar\",\"attributes\":[],\"events\":null,\"links\":null,\"status\":\x7b\x7d\x7d\n").data :=
  have hm : ∀ s ∈ [sampleSpan "TestFoo", sampleSpan "TestBar"],
      ∃ b, sampleMarshal (spanData s) = .ok b := by
    intro s hs
    simp only [List.mem_cons, List.mem_singleton, List.not_mem_nil, or_false] at hs
    rcases hs with rfl | rfl <;> exact ⟨_, rfl⟩
  have h := exportSpans_writes_every_record sampleMarshal okWriter
    [sampleSpan "TestFoo", sampleSpan "TestBar"] hm (fun _ _ _ _ => rfl)
  ⟨hm, h.1, h.2.1.trans (by decide)⟩

/-- C5, amended: a failed flush is not rolled back.  When `ExportSpans` returns
nil the writer has received the whole batch.  When it returns an error the
writer has received the complete records of the spans before the failing one,
in order, followed by the part of the failing span's record that was accepted,
and nothing else; the writer is left as it was only when the failing span is
the first one and none of its bytes was accepted. -/
theorem exportSpans_failed_flush_keeps_written {α : Type}
    (marshal : List (String × MapValue α) → Except GoError (List Char))
    (w : Writer) (spans : List (ReadOnlySpan α)) :
    ((ExportSpans marshal w spans).2 = none →
      (ExportSpans marshal w spans).1.sink = w.sink ++ recordsOf marshal spans)
    ∧ (∀ err, (ExportSpans marshal w spans).2 = some err →
        ∃ (done : List (ReadOnlySpan α)) (failing : ReadOnlySpan α)
          (rest : List (ReadOnlySpan α)) (part : List Char),
          spans = done ++ failing :: rest
          ∧ (∀ s ∈ done, ∃ b, marshal (spanData s) = .ok b)
          ∧ (ExportSpans marshal w spans).1.sink = w.sink ++ recordsOf marshal done ++ part
          ∧ part <+: recordOf marshal failing
          ∧ ((ExportSpans marshal w spans).1.sink = w.sink ↔ done = [] ∧ part = [])) := by
  refine ⟨?_, ?_⟩
  · intro h
    have := (exportSpans_ok marshal spans w (ExportSpans marshal w spans).1
      (by rw [← h])).2
    rw [this]
  · intro err h
    obtain ⟨done, failing, rest, w1, hsp, hdone, hfail⟩ :=
      exportSpans_err marshal spans w (ExportSpans marshal w spans).1 err (by rw [← h])
    obtain ⟨hall, hw1⟩ := exportSpans_ok marshal done w w1 hdone
    have hnil := recordsOf_eq_nil marshal done hall
    have fin : ∀ part : List Char,
        (ExportSpans marshal w spans).1.sink = w.sink ++ recordsOf marshal done ++ part →
        part <+: recordOf marshal failing →
        ∃ (done : List (ReadOnlySpan α)) (failing : ReadOnlySpan α)
          (rest : List (ReadOnlySpan α)) (part : List Char),
          spans = done ++ failing :: rest
          ∧ (∀ s ∈ done, ∃ b, marshal (spanData s) = .ok b)
          ∧ (ExportSpans marshal w spans).1.sink = w.sink ++ recordsOf marshal done ++ part
          ∧ part <+: recordOf marshal failing
          ∧ ((ExportSpans marshal w spans).1.sink = w.sink ↔ done = [] ∧ part = []) := by
      intro part hs hp
      refine ⟨done, failing, rest, part, hsp, hall, hs, hp, ?_⟩
      rw [hs, List.append_assoc]
      constructor
      · intro h0
        have h1 : recordsOf marshal done ++ part = [] := by
          have := congrArg List.length h0
          simp only [List.length_append] at this
          exact List.eq_nil_of_length_eq_zero (by simp only [List.length_append]; omega)
        exact ⟨hnil.1 (List.append_eq_nil.1 h1).1, (List.append_eq_nil.1 h1).2⟩
      · rintro ⟨hd, hp0⟩
        rw [hnil.2 hd, hp0]
        simp
    rcases hfail with ⟨hm, hw'⟩ | ⟨b, n, hm, _, hw'⟩ | ⟨b, n, hm, _, _, hw'⟩
    · apply fin []
      · rw [hw', hw1]; simp
      · simp
    · apply fin (b.take n)
      · rw [hw', hw1]
      · simp only [recordOf, hm]
        exact (List.take_prefix n b).trans (List.prefix_append b _)
    · apply fin (b ++ ['\n'].take n)
      · rw [hw', hw1]; simp
      · simp only [recordOf, hm]
        exact (List.prefix_append_right_inj b).2 (List.take_prefix n _)

/-- The export of a list whose first part meets no failure goes on with the
rest of the list, the first part's records being written. -/
theorem exportSpans_after_ok {α : Type}
    (marshal : List (String × MapValue α) → Except GoError (List Char))
    (done : List (ReadOnlySpan α)) :
    ∀ (w : Writer) (l : List (ReadOnlySpan α)),
      (∀ s ∈ done, ∃ b, marshal (spanData s) = .ok b) →
      (∀ pre p post, writesOf marshal done = pre ++ p :: post → w.policy (w.log ++ pre) p = none) →
      ExportSpans marshal w (done ++ l)
        = ExportSpans marshal
            { sink := w.sink ++ recordsOf marshal done,
              log := w.log ++ writesOf marshal done, policy := w.policy } l := by
  induction done with
  | nil => intro w l _ _; simp [recordsOf, writesOf]
  | cons s ss ih =>
    intro w l hm hw
    obtain ⟨b, hb⟩ := hm s (by simp)
    have hwr : writesOf marshal (s :: ss) = b :: ['\n'] :: writesOf marshal ss := by
      simp [writesOf, hb]
    have h1 : w.policy w.log b = none := by
      have := hw [] b (['\n'] :: writesOf marshal ss) (by simp [hwr])
      simpa using this
    have h2 : w.policy (w.log ++ [b]) ['\n'] = none :=
      hw [b] ['\n'] (writesOf marshal ss) (by simp [hwr])
    have e1 := write_of_policy_none w b h1
    have e2 := write_of_policy_none
      { sink := w.sink ++ b, log := w.log ++ [b], policy := w.policy } ['\n'] h2
    rw [List.cons_append, ExportSpans, hb]
    simp only [e1, e2]
    rw [ih _ l (fun x hx => hm x (by simp [hx]))]
    · simp [recordsOf, recordOf, hb, hwr]
    · intro pre p post hpre
      have := hw (b :: ['\n'] :: pre) p post (by simp [hwr, hpre])
      simpa using this

/-- An export that returns nil was refused no `Write`. -/
theorem exportSpans_ok_policy {α : Type}
    (marshal : List (String × MapValue α) → Except GoError (List Char))
    (spans : List (ReadOnlySpan α)) :
    ∀ (w w' : Writer), ExportSpans marshal w spans = (w', none) →
      ∀ pre p post, writesOf marshal spans = pre ++ p :: post →
        w.policy (w.log ++ pre) p = none := by
  induction spans with
  | nil =>
    intro w w' _ pre p post h
    simp [writesOf] at h
  | cons s ss ih =>
    intro w w' h pre p post hsplit
    rw [ExportSpans] at h
    cases hm : marshal (spanData s) with
    | error e => rw [hm] at h; simp at h
    | ok b =>
      rw [hm] at h
      simp only at h
      cases h1 : (w.Write b).2.2 with
      | some e => rw [h1] at h; simp at h
      | none =>
        rw [h1] at h
        simp only at h
        cases h2 : ((w.Write b).1.Write ['\n']).2.2 with
        | some e => rw [h2] at h; simp at h
        | none =>
          rw [h2] at h
          simp only at h
          obtain ⟨hp1, e1⟩ := write_ok w b h1
          obtain ⟨hp2, e2⟩ := write_ok _ _ h2
          rw [e1] at hp2 e2
          rw [e1, e2] at h
          simp only [writesOf, hm] at hsplit
          cases pre with
          | nil =>
            simp only [List.nil_append, List.cons.injEq] at hsplit
            rw [← hsplit.1]
            simpa using hp1
          | cons x pre1 =>
            simp only [List.cons_append, List.cons.injEq] at hsplit
            obtain ⟨hx, hrest⟩ := hsplit
            subst hx
            cases pre1 with
            | nil =>
              simp only [List.nil_append, List.cons.injEq] at hrest
              rw [← hrest.1]
              exact hp2
            | cons y pre2 =>
              simp only [List.cons_append, List.cons.injEq] at hrest
              obtain ⟨hy, hrest2⟩ := hrest
              subst hy
              have := ih _ _ h pre2 p post hrest2
              simpa using this

/-- C10: a failure during `ExportSpans` ends the call with the error of the
first failing operation.  When the spans before the failing one are exported
without failure, a failing serialization, a failing `Write` of the
serialization or a failing `Write` of the newline makes the call return that
error, with the writes made so far as the last ones; the call returns nil only
when no serialization and no `Write` fails.  Whenever an error is returned, the
bytes written are the complete records of the spans before the failing one
followed by the accepted part of the failing record, a prefix of what an export
of the same list that returns nil writes. -/
theorem exportSpans_stops_at_first_failure {α : Type}
    (marshal : List (String × MapValue α) → Except GoError (List Char))
    (w : Writer) (spans : List (ReadOnlySpan α)) :
    (∀ (done : List (ReadOnlySpan α)) (failing : ReadOnlySpan α)
        (rest : List (ReadOnlySpan α)) (err : GoError),
        spans = done ++ failing :: rest →
        (∀ s ∈ done, ∃ b, marshal (spanData s) = .ok b) →
        (∀ pre p post, writesOf marshal done = pre ++ p :: post →
          w.policy (w.log ++ pre) p = none) →
        (marshal (spanData failing) = .error err →
          ExportSpans marshal w spans
            = ({ sink := w.sink ++ recordsOf marshal done,
                 log := w.log ++ writesOf marshal done, policy := w.policy }, some err))
        ∧ (∀ b n, marshal (spanData failing) = .ok b →
            w.policy (w.log ++ writesOf marshal done) b = some (n, err) →
            ExportSpans marshal w spans
              = ({ sink := w.sink ++ recordsOf marshal done ++ b.take n,
                   log := w.log ++ writesOf marshal done ++ [b], policy := w.policy }, some err))
        ∧ (∀ b n, marshal (spanData failing) = .ok b →
            w.policy (w.log ++ writesOf marshal done) b = none →
            w.policy (w.log ++ writesOf marshal done ++ [b]) ['\n'] = some (n, err) →
            ExportSpans marshal w spans
              = ({ sink := w.sink ++ recordsOf marshal done ++ b ++ ['\n'].take n,
                   log := w.log ++ writesOf marshal done ++ [b, ['\n']], policy := w.policy },
                 some err)))
    ∧ ((ExportSpans marshal w spans).2 = none ↔
        (∀ s ∈ spans, ∃ b, marshal (spanData s) = .ok b)
        ∧ (∀ pre p post, writesOf marshal spans = pre ++ p :: post →
            w.policy (w.log ++ pre) p = none))
    ∧ (∀ err, (ExportSpans marshal w spans).2 = some err →
        ∃ (done : List (ReadOnlySpan α)) (failing : ReadOnlySpan α)
          (rest : List (ReadOnlySpan α)) (w1 : Writer),
          spans = done ++ failing :: rest
          ∧ ExportSpans marshal w done = (w1, none)
          ∧ w1.sink = w.sink ++ recordsOf marshal done
          ∧ w1.log = w.log ++ writesOf marshal done
          ∧ ((marshal (spanData failing) = .error err
                ∧ (ExportSpans marshal w spans).1.sink = w1.sink
                ∧ (ExportSpans marshal w spans).1.log = w1.log)
            ∨ (∃ b n, marshal (spanData failing) = .ok b ∧ w1.policy w1.log b = some (n, err)
                ∧ (ExportSpans marshal w spans).1.sink = w1.sink ++ b.take n
                ∧ (ExportSpans marshal w spans).1.log = w1.log ++ [b])
            ∨ (∃ b n, marshal (spanData failing) = .ok b ∧ w1.policy w1.log b = none
                ∧ w1.policy (w1.log ++ [b]) ['\n'] = some (n, err)
                ∧ (ExportSpans marshal w spans).1.sink = w1.sink ++ b ++ ['\n'].take n
                ∧ (ExportSpans marshal w spans).1.log = w1.log ++ [b, ['\n']]))
          ∧ (∀ u : Writer, (ExportSpans marshal u spans).2 = none →
              ∃ written full : List Char,
                (ExportSpans marshal w spans).1.sink = w.sink ++ written
                ∧ (ExportSpans marshal u spans).1.sink = u.sink ++ full
                ∧ written <+: full)) := by
  refine ⟨?_, ?_, ?_⟩
  · intro done failing rest err hsp hdone hw
    have hgo := exportSpans_after_ok marshal done w (failing :: rest) hdone hw
    rw [← hsp] at hgo
    refine ⟨?_, ?_, ?_⟩
    · intro hm
      rw [hgo, ExportSpans, hm]
    · intro b n hm hp
      rw [hgo, ExportSpans, hm]
      simp [Writer.Write, hp]
    · intro b n hm hp1 hp2
      have hp2' : w.policy (w.log ++ (writesOf marshal done ++ [b])) ['\n'] = some (n, err) := by
        rw [← List.append_assoc]; exact hp2
      rw [hgo, ExportSpans, hm]
      simp [Writer.Write, hp1, hp2']
  · constructor
    · intro h
      have hres : ExportSpans marshal w spans = ((ExportSpans marshal w spans).1, none) := by
        rw [← h]
      exact ⟨(exportSpans_ok marshal spans w _ hres).1,
        exportSpans_ok_policy marshal spans w _ hres⟩
    · rintro ⟨hm, hw⟩
      rw [exportSpans_of_ok marshal spans w hm hw]
  · intro err h
    obtain ⟨done, failing, rest, w1, hsp, hdone, hfail⟩ :=
      exportSpans_err marshal spans w (ExportSpans marshal w spans).1 err (by rw [← h])
    obtain ⟨hall, hw1⟩ := exportSpans_ok marshal done w w1 hdone
    have hs1 : w1.sink = w.sink ++ recordsOf marshal done := by rw [hw1]
    have hl1 : w1.log = w.log ++ writesOf marshal done := by rw [hw1]
    refine ⟨done, failing, rest, w1, hsp, hdone, hs1, hl1, ?_, ?_⟩
    · rcases hfail with ⟨hm, hw'⟩ | ⟨b, n, hm, hp, hw'⟩ | ⟨b, n, hm, hp1, hp2, hw'⟩
      · exact Or.inl ⟨hm, by rw [hw'], by rw [hw']⟩
      · exact Or.inr (Or.inl ⟨b, n, hm, hp, by rw [hw'], by rw [hw']⟩)
      · exact Or.inr (Or.inr ⟨b, n, hm, hp1, hp2, by rw [hw'], by rw [hw']⟩)
    · intro u hu
      obtain ⟨hallu, hu'⟩ := exportSpans_ok marshal spans u (ExportSpans marshal u spans).1
        (by rw [← hu])
      obtain ⟨b, hb⟩ := hallu failing (by rw [hsp]; simp)
      have hfull : recordsOf marshal spans
          = recordsOf marshal done ++ ((b ++ ['\n']) ++ recordsOf marshal rest) := by
        rw [hsp, recordsOf_append]
        simp [recordsOf, recordOf, hb]
      have fin : ∀ part : List Char,
          (ExportSpans marshal w spans).1.sink = w1.sink ++ part → part <+: b ++ ['\n'] →
          ∃ written full : List Char,
              (ExportSpans marshal w spans).1.sink = w.sink ++ written
              ∧ (ExportSpans marshal u spans).1.sink = u.sink ++ full
              ∧ written <+: full := by
        intro part hs hp
        refine ⟨recordsOf marshal done ++ part, recordsOf marshal spans, ?_, by rw [hu'], ?_⟩
        · rw [hs, hs1, List.append_assoc]
        · rw [hfull]
          exact (List.prefix_append_right_inj _).2 (hp.trans (List.prefix_append _ _))
      rcases hfail with ⟨hm, _⟩ | ⟨b', n, hm, _, hw'⟩ | ⟨b', n, hm, _, _, hw'⟩
      · rw [hb] at hm; cases hm
      · rw [hb] at hm
        cases hm
        exact fin (b.take n) (by rw [hw'])
          ((List.take_prefix n b).trans (List.prefix_append b _))
      · rw [hb] at hm
        cases hm
        exact fin (b ++ ['\n'].take n) (by rw [hw']; simp)
          ((List.prefix_append_right_inj b).2 (List.take_prefix n _))

/-- C5 fails as stated: with a writer that rejects its third `Write`, the export
of two spans returns the error while the record of the first span is already
in the writer, which was empty before. -/
theorem exportSpans_failed_flush_not_atomic :
    (ExportSpans sampleMarshal (sampleWriter 2 0) [sampleSpan "TestFoo", sampleSpan "TestBar"]).2
        = some (GoError.other "disk full")
    ∧ (sampleWriter 2 0).sink = []
    ∧ (ExportSpans sampleMarshal (sampleWriter 2 0)
          [sampleSpan "TestFoo", sampleSpan "TestBar"]).1.sink
        = "\x7b\"traceID\":\"0af7651916cd43dd8448eb211c80319c\",\"spanID\":\"b7ad6b7169203331\",\"name\":\"TestFoo\",\"attributes\":[],\"events\":null,\"links\":null,\"status\":\x7b\x7d\x7d\n".data := by
  decide

/-- The amended C5 on two spans and a writer that rejects its third `Write`. -/
theorem exportSpans_failed_flush_keeps_written_witness :
    (ExportSpans sampleMarshal (sampleWriter 2 0) [sampleSpan "TestFoo", sampleSpan "TestBar"]).2
        = some (GoError.other "disk full")
    ∧ ∃ (done : List (ReadOnlySpan String)) (failing : ReadOnlySpan String)
        (rest : List (ReadOnlySpan String)) (part : List Char),
        [sampleSpan "TestFoo", sampleSpan "TestBar"] = done ++ failing :: rest
        ∧ (∀ s ∈ done, ∃ b, sampleMarshal (spanData s) = .ok b)
        ∧ (ExportSpans sampleMarshal (sampleWriter 2 0)
              [sampleSpan "TestFoo", sampleSpan "TestBar"]).1.sink
            = (sampleWriter 2 0).sink ++ recordsOf sampleMarshal done ++ part
        ∧ part <+: recordOf sampleMarshal failing
        ∧ ((ExportSpans sampleMarshal (sampleWriter 2 0)
              [sampleSpan "TestFoo", sampleSpan "TestBar"]).1.sink = (sampleWriter 2 0).sink
            ↔ done = [] ∧ part = []) :=
  ⟨by decide,
    (exportSpans_failed_flush_keeps_written sampleMarshal (sampleWriter 2 0)
      [sampleSpan "TestFoo", sampleSpan "TestBar"]).2 (GoError.other "disk full") (by decide)⟩

/-- C10 on three spans and a writer that stops five bytes into its third
`Write`: the first record and five bytes of the second are written, the call
returns the writer's error after three writes, and the third span is not
touched. -/
theorem exportSpans_stops_at_first_failure_witness :
    (∀ s ∈ [sampleSpan "TestFoo"], ∃ b, sampleMarshal (spanData s) = .ok b)
    ∧ (∀ pre p post, writesOf sampleMarshal [sampleSpan "TestFoo"] = pre ++ p :: post →
        (sampleWriter 2 5).policy ((sampleWriter 2 5).log ++ pre) p = none)
    ∧ (sampleWriter 2 5).policy
          ((sampleWriter 2 5).log ++ writesOf sampleMarshal [sampleSpan "TestFoo"])
          "\x7b\"traceID\":\"0af7651916cd43dd8448eb211c80319c\",\"spanID\":\"b7ad6b7169203331\",\"name\":\"TestBar\",\"attributes\":[],\"events\":null,\"links\":null,\"status\":\x7b\x7d\x7d".data
        = some (5, GoError.other "disk full")
    ∧ (ExportSpans sampleMarshal (sampleWriter 2 5)
          [sampleSpan "TestFoo", sampleSpan "TestBar", sampleSpan "TestBaz"]).2
        = some (GoError.other "disk full")
    ∧ (ExportSpans sampleMarshal (sampleWriter 2 5)
          [sampleSpan "TestFoo", sampleSpan "TestBar", sampleSpan "TestBaz"]).1.sink
        = "\x7b\"traceID\":\"0af7651916cd43dd8448eb211c80319c\",\"spanID\":\"b7ad6b7169203331\",\"name\":\"TestFoo\",\"attributes\":[],\"events\":null,\"links\":null,\"status\":\x7b\x7d\x7d\n\x7b\"tra".data
    ∧ (ExportSpans sampleMarshal (sampleWriter 2 5)
          [sampleSpan "TestFoo", sampleSpan "TestBar", sampleSpan "TestBaz"]).1.log.length = 3 :=
  have hm : ∀ s ∈ [sampleSpan "TestFoo"], ∃ b, sampleMarshal (spanData s) = .ok b := by
    intro s hs
    simp only [List.mem_singleton] at hs
    exact hs ▸ ⟨_, rfl⟩
  have hw : ∀ pre p post, writesOf sampleMarshal [sampleSpan "TestFoo"] = pre ++ p :: post →
      (sampleWriter 2 5).policy ((sampleWriter 2 5).log ++ pre) p = none := by
    intro pre p post h
    have hlen := congrArg List.length h
    have h2 : (writesOf sampleMarshal [sampleSpan "TestFoo"]).length = 2 := by decide
    rw [h2] at hlen
    simp only [List.length_append, List.length_cons] at hlen
    have : pre.length ≠ 2 := by omega
    simp [sampleWriter, this]
  have h := ((exportSpans_stops_at_first_failure sampleMarshal (sampleWriter 2 5)
    [sampleSpan "TestFoo", sampleSpan "TestBar", sampleSpan "TestBaz"]).1
    [sampleSpan "TestFoo"] (sampleSpan "TestBar") [sampleSpan "TestBaz"]
    (GoError.other "disk full") rfl hm hw).2.1
    "\x7b\"traceID\":\"0af7651916cd43dd8448eb211c80319c\",\"spanID\":\"b7ad6b7169203331\",\"name\":\"TestBar\",\"attributes\":[],\"events\":null,\"links\":null,\"status\":\x7b\x7d\x7d".data
    5 rfl (by decide)
  ⟨hm, hw, by decide, (congrArg Prod.snd h).trans rfl,
    (congrArg (fun r => r.1.sink) h).trans (by decide),
    (congrArg (fun r => r.1.log.length) h).trans (by decide)⟩

end GoTestTracer
